import Mathlib

/-!
# Booking / waitlist / credit-accounting workflow — shallow embedding

This file embeds the class-booking workflow of the fitness-studio backend
(`src/routes/booking.py`, `src/routes/trainer.py`, models in
`src/models/class.py` and `src/models/membership.py`) and proves the
spec's claims about it.

Modelling conventions:
* `datetime` values are `Nat` (only their ordering is used by the code).
* The SQLAlchemy session is a `State` record of four tables, each a list
  in insertion (rowid) order.  `Query.get(id)` / `.first()` become
  `List.find?`; in-place mutation of the row object returned by a query
  becomes `updateFirst` keyed on the row's primary key (primary keys are
  unique in the store; well-formedness hypotheses state this where a
  proof needs it).
* `uuid.uuid4()` is made explicit: operations that insert a row take the
  fresh id as a parameter.
* The DB-level unique constraints `unique_user_class_booking` and
  `unique_user_class_waitlist` (`src/models/class.py`) are on
  `(user_id, class_id)` with no status filter; an INSERT violating one
  raises `IntegrityError` at commit, which the route's `except` handler
  turns into a rollback and a 500 response.  The embedding checks the
  constraint at the insertion point and returns the 500 response with
  the state unchanged (the rollback).  Collisions of the fresh uuid
  primary keys themselves are not modelled.
-/

namespace Gym

/-- `Booking.status`: booked, cancelled, attended, no-show. -/
inductive BStatus where
  | booked | cancelled | attended | noShow
deriving DecidableEq, Repr

/-- `WaitlistEntry.status`: waiting, notified, converted, removed. -/
inductive WStatus where
  | waiting | notified | converted | removed
deriving DecidableEq, Repr

/-- `Membership.status`: active, paused, expired, cancelled. -/
inductive MStatus where
  | active | paused | expired | cancelled
deriving DecidableEq, Repr

/-- `ClassType` (only the field the workflow reads). -/
structure ClassType where
  credits_required : Nat
deriving DecidableEq, Repr

/-- `Class` row (`src/models/class.py`); `class_type` is the ORM
relationship to its `ClassType`. -/
structure Class where
  id : String
  trainer_id : String
  start_time : Nat
  end_time : Nat
  capacity : Nat
  is_cancelled : Bool
  cancellation_reason : Option String
  class_type : ClassType
deriving DecidableEq, Repr

/-- `Booking` row. -/
structure Booking where
  id : String
  user_id : String
  class_id : String
  status : BStatus
  credits_used : Nat
  booking_time : Nat
  cancellation_time : Option Nat
  cancellation_reason : Option String
deriving DecidableEq, Repr

/-- `WaitlistEntry` row. -/
structure WaitlistEntry where
  id : String
  user_id : String
  class_id : String
  position : Nat
  join_time : Nat
  status : WStatus
  notification_time : Option Nat
deriving DecidableEq, Repr

/-- `Membership` row (the fields the workflow reads);
`remaining_credits = none` means unlimited. -/
structure Membership where
  id : String
  user_id : String
  status : MStatus
  end_date : Nat
  remaining_credits : Option Int
deriving DecidableEq, Repr

/-- The relational store, lists in insertion (rowid) order. -/
structure State where
  classes : List Class
  bookings : List Booking
  waitlist : List WaitlistEntry
  memberships : List Membership
deriving DecidableEq, Repr

/-- HTTP-style responses of the workflow routes. -/
inductive Response where
  | bookingCreated (booking_id : String)
  | waitlisted (position : Nat)
  | ok (msg : String)
  | err (code : Nat) (msg : String)
deriving DecidableEq, Repr

/-- Replace the first element satisfying `p` by its image under `f`
(the in-place mutation of the single ORM object a query returned). -/
def updateFirst {α : Type} (p : α → Bool) (f : α → α) : List α → List α
  | [] => []
  | x :: xs => if p x then f x :: xs else x :: updateFirst p f xs

/-- 4.1 Capacity Checker: count of bookings in status {booked, attended}
for a class (`Booking.query.filter(...).count()` in `booking.py`). -/
def activeBookingCount (st : State) (cid : String) : Nat :=
  (st.bookings.filter fun b =>
    b.class_id = cid ∧ (b.status = BStatus.booked ∨ b.status = BStatus.attended)).length

/-- The status=waiting waitlist entries of a class, in store order. -/
def waitingEntries (st : State) (cid : String) : List WaitlistEntry :=
  st.waitlist.filter fun e => e.class_id = cid ∧ e.status = WStatus.waiting

/-- Positions of the waiting entries of a class. -/
def waitingPositions (st : State) (cid : String) : List Nat :=
  (waitingEntries st cid).map (·.position)

/-- `db.func.max(position)` over status=waiting entries, `or 0`. -/
def maxWaitingPosition (st : State) (cid : String) : Nat :=
  (waitingPositions st cid).foldr Nat.max 0

/-- The membership query shared by booking, cancellation and cascade:
first membership of the user with status active and `end_date >= now`. -/
def findActiveMembership (now : Nat) (ms : List Membership) (uid : String) :
    Option Membership :=
  ms.find? fun m => m.user_id = uid ∧ m.status = MStatus.active ∧ now ≤ m.end_date

/-- The refund block shared by `cancel_booking` and `cancel_class`:
if credits were used, add them back to the user's *current* active
unexpired membership when it exists and tracks finite credits. -/
def refundCredits (now : Nat) (ms : List Membership) (uid : String)
    (credits_used : Nat) : List Membership :=
  if 0 < credits_used then
    match findActiveMembership now ms uid with
    | some m =>
        if m.remaining_credits.isSome then
          updateFirst (fun x => x.id = m.id)
            (fun x => { x with
              remaining_credits := x.remaining_credits.map (· + (credits_used : Int)) }) ms
        else ms
    | none => ms
  else ms

/-- The credit guard in `create_booking`: `remaining_credits` is not
`None` (unlimited) and is below the class's required credits. -/
def insufficientCredits (m : Membership) (credits_required : Nat) : Bool :=
  match m.remaining_credits with
  | some c => c < (credits_required : Int)
  | none => false

/-- Stable insertion of a waitlist entry into a list sorted by
`join_time` (equal keys keep store order, matching `ORDER BY join_time`
with rowid tie-breaking). -/
def insertByJoin (e : WaitlistEntry) : List WaitlistEntry → List WaitlistEntry
  | [] => [e]
  | x :: xs =>
      if e.join_time < x.join_time then e :: x :: xs else x :: insertByJoin e xs

/-- Stable sort by `join_time` ascending. -/
def sortByJoinTime : List WaitlistEntry → List WaitlistEntry
  | [] => []
  | x :: xs => insertByJoin x (sortByJoinTime xs)

/-- `reorder_waitlist(class_id)` (`booking.py`): re-fetch the waiting
entries of the class ordered by join_time and reassign positions
1, 2, 3, … in that order. -/
def reorder_waitlist (st : State) (cid : String) : State :=
  let entries := sortByJoinTime (waitingEntries st cid)
  { st with waitlist := st.waitlist.map fun e =>
      match entries.findIdx? (fun x => x.id = e.id) with
      | some i => { e with position := i + 1 }
      | none => e }

/-- `ORDER BY position` + `.first()`: the entry with the smallest
position, earliest store row winning ties. -/
def minByPosition : List WaitlistEntry → Option WaitlistEntry
  | [] => none
  | e :: es =>
      match minByPosition es with
      | none => some e
      | some m => if e.position ≤ m.position then some e else some m

/-- `process_waitlist(class_id)` (`booking.py`): if the class exists and
has a free spot, flip the first waiting entry (smallest position) to
notified, stamp `notification_time`, then reorder. -/
def process_waitlist (st : State) (now : Nat) (cid : String) : State :=
  match st.classes.find? (fun c => c.id = cid) with
  | none => st
  | some class_obj =>
      if class_obj.capacity ≤ activeBookingCount st cid then st
      else
        match minByPosition (waitingEntries st cid) with
        | none => st
        | some next_entry =>
            reorder_waitlist
              { st with waitlist := (updateFirst (fun e => e.id = next_entry.id)
                  (fun e => { e with
                      status := WStatus.notified,
                      notification_time := some now }) st.waitlist) } cid

/-- `create_booking` (`POST /bookings`, `booking.py`).  `new_id` is the
`uuid.uuid4()` for the row this call may insert. -/
def create_booking (st : State) (now : Nat) (user_id cid new_id : String) :
    Response × State :=
  match st.classes.find? (fun c => c.id = cid) with
  | none => (Response.err 404 "Class not found", st)
  | some class_obj =>
    if class_obj.start_time < now then
      (Response.err 400 "Cannot book a class that has already started", st)
    else if class_obj.is_cancelled then
      (Response.err 400 "Cannot book a cancelled class", st)
    else
      match st.bookings.find? (fun b => b.class_id = cid ∧ b.user_id = user_id ∧
          (b.status = BStatus.booked ∨ b.status = BStatus.attended)) with
      | some _ => (Response.err 409 "You already have a booking for this class", st)
      | none =>
        match findActiveMembership now st.memberships user_id with
        | none => (Response.err 403 "You do not have an active membership", st)
        | some active_membership =>
          let credits_required := class_obj.class_type.credits_required
          if insufficientCredits active_membership credits_required then
            (Response.err 403 "You do not have enough credits", st)
          else
            if class_obj.capacity ≤ activeBookingCount st cid then
              -- class is full: waitlist branch
              match st.waitlist.find? (fun e => e.class_id = cid ∧
                  e.user_id = user_id ∧ e.status = WStatus.waiting) with
              | some _ =>
                  (Response.err 409 "You are already on the waitlist for this class", st)
              | none =>
                  -- unique_user_class_waitlist fires at commit for any
                  -- prior (user, class) entry, whatever its status
                  if st.waitlist.any (fun e => e.user_id = user_id ∧ e.class_id = cid) then
                    (Response.err 500
                      "UNIQUE constraint failed: waitlist_entries.user_id, waitlist_entries.class_id",
                      st)
                  else
                    let entry : WaitlistEntry :=
                      { id := new_id, user_id := user_id, class_id := cid,
                        position := maxWaitingPosition st cid + 1,
                        join_time := now, status := WStatus.waiting,
                        notification_time := none }
                    (Response.waitlisted entry.position,
                      { st with waitlist := st.waitlist ++ [entry] })
            else
              -- unique_user_class_booking fires at commit for any prior
              -- (user, class) booking, whatever its status
              if st.bookings.any (fun b => b.user_id = user_id ∧ b.class_id = cid) then
                (Response.err 500
                  "UNIQUE constraint failed: bookings.user_id, bookings.class_id", st)
              else
                let booking : Booking :=
                  { id := new_id, user_id := user_id, class_id := cid,
                    status := BStatus.booked, credits_used := credits_required,
                    booking_time := now, cancellation_time := none,
                    cancellation_reason := none }
                let ms :=
                  if active_membership.remaining_credits.isSome then
                    updateFirst (fun m => m.id = active_membership.id)
                      (fun m => { m with remaining_credits :=
                        m.remaining_credits.map (· - (credits_required : Int)) })
                      st.memberships
                  else st.memberships
                (Response.bookingCreated new_id,
                  { st with bookings := st.bookings ++ [booking], memberships := ms })

/-- `cancel_booking` (`POST /bookings/<id>/cancel`, `booking.py`). -/
def cancel_booking (st : State) (now : Nat) (booking_id acting_user acting_role : String)
    (reason : Option String) : Response × State :=
  match st.bookings.find? (fun b => b.id = booking_id) with
  | none => (Response.err 404 "Booking not found", st)
  | some booking =>
    if booking.user_id ≠ acting_user ∧ acting_role ≠ "admin" ∧ acting_role ≠ "trainer" then
      (Response.err 403 "Unauthorized", st)
    else if booking.status ≠ BStatus.booked then
      (Response.err 400 "Booking cannot be cancelled", st)
    else
      match st.classes.find? (fun c => c.id = booking.class_id) with
      | none => (Response.err 404 "Class not found", st)
      | some class_obj =>
        if class_obj.start_time < now then
          (Response.err 400 "Cannot cancel a booking for a class that has already started", st)
        else
          let st1 : State :=
            { st with bookings := (updateFirst (fun b => b.id = booking_id)
                (fun b => { b with
                    status := BStatus.cancelled,
                    cancellation_time := some now,
                    cancellation_reason := reason }) st.bookings) }
          let st2 : State :=
            { st1 with memberships :=
                refundCredits now st1.memberships booking.user_id booking.credits_used }
          (Response.ok "Booking cancelled successfully",
            process_waitlist st2 now booking.class_id)

/-- `remove_from_waitlist` (`POST /waitlist/<id>/remove`, `booking.py`). -/
def remove_from_waitlist (st : State) (entry_id acting_user acting_role : String) :
    Response × State :=
  match st.waitlist.find? (fun e => e.id = entry_id) with
  | none => (Response.err 404 "Waitlist entry not found", st)
  | some entry =>
    if entry.user_id ≠ acting_user ∧ acting_role ≠ "admin" ∧ acting_role ≠ "trainer" then
      (Response.err 403 "Unauthorized", st)
    else if entry.status ≠ WStatus.waiting then
      (Response.err 400 "Waitlist entry cannot be removed", st)
    else
      let st1 : State :=
        { st with waitlist := (updateFirst (fun e => e.id = entry_id)
            (fun e => { e with status := WStatus.removed }) st.waitlist) }
      (Response.ok "Removed from waitlist successfully",
        reorder_waitlist st1 entry.class_id)

/-- `cancel_class` (`POST /trainer/classes/<id>/cancel`, `trainer.py`).
The `@role_required(['trainer', 'admin'])` middleware is the first
guard.  The Python loop mutates each booked booking's status and does
its refund one booking at a time; since the status writes and the
membership writes touch disjoint tables, the loop is embedded as the
status map over the bookings plus the refund fold over the originally
booked bookings, in the same order. -/
def cancel_class (st : State) (now : Nat) (cid acting_user acting_role : String)
    (reason : Option String) : Response × State :=
  if acting_role ≠ "trainer" ∧ acting_role ≠ "admin" then
    (Response.err 403 "Unauthorized", st)
  else
    match st.classes.find? (fun c => c.id = cid) with
    | none => (Response.err 404 "Class not found", st)
    | some class_obj =>
      if acting_role = "trainer" ∧ class_obj.trainer_id ≠ acting_user then
        (Response.err 403 "Unauthorized", st)
      else if class_obj.is_cancelled then
        (Response.err 400 "Class is already cancelled", st)
      else if class_obj.end_time < now then
        (Response.err 400 "Cannot cancel a class that has already ended", st)
      else
        match reason with
        | none => (Response.err 400 "Cancellation reason is required", st)
        | some r =>
          if r = "" then (Response.err 400 "Cancellation reason is required", st)
          else
            let toCancel := st.bookings.filter fun b =>
              b.class_id = cid ∧ b.status = BStatus.booked
            (Response.ok "Class cancelled successfully",
              { st with
                classes := (updateFirst (fun c => c.id = cid)
                  (fun c => { c with
                      is_cancelled := true,
                      cancellation_reason := some r }) st.classes),
                bookings := (st.bookings.map fun b =>
                  if b.class_id = cid ∧ b.status = BStatus.booked then
                    { b with
                        status := BStatus.cancelled,
                        cancellation_time := some now,
                        cancellation_reason := some "Class cancelled by trainer" }
                  else b),
                memberships := (toCancel.foldl
                  (fun ms b => refundCredits now ms b.user_id b.credits_used)
                  st.memberships) })

/-! ## Generic list lemmas -/

section ListLemmas

variable {α β : Type}

theorem updateFirst_of_forall_neg {q : α → Bool} {f : α → α} :
    ∀ {l : List α}, (∀ x ∈ l, q x = false) → updateFirst q f l = l
  | [], _ => rfl
  | x :: xs, h => by
      have hx : q x = false := h x (List.mem_cons_self x xs)
      simp only [updateFirst, hx, if_neg Bool.false_ne_true, List.cons.injEq, true_and]
      exact updateFirst_of_forall_neg fun y hy => h y (List.mem_cons_of_mem x hy)

theorem map_updateFirst {g : α → β} {q : α → Bool} {f : α → α}
    (hf : ∀ x, g (f x) = g x) : ∀ (l : List α), (updateFirst q f l).map g = l.map g
  | [] => rfl
  | x :: xs => by
      by_cases hx : q x
      · simp [updateFirst, hx, hf]
      · simp [updateFirst, hx, map_updateFirst hf xs]

theorem mem_updateFirst {q : α → Bool} {f : α → α} :
    ∀ {l : List α} {x : α}, x ∈ updateFirst q f l → x ∈ l ∨ ∃ y ∈ l, x = f y
  | a :: l, x, hx => by
      by_cases ha : q a
      · simp only [updateFirst, ha, if_pos] at hx
        rcases List.mem_cons.mp hx with h | h
        · exact Or.inr ⟨a, List.mem_cons_self a l, h⟩
        · exact Or.inl (List.mem_cons_of_mem a h)
      · simp only [updateFirst, ha, if_neg, Bool.false_eq_true] at hx
        rcases List.mem_cons.mp hx with h | h
        · exact Or.inl (h ▸ List.mem_cons_self a l)
        · rcases mem_updateFirst h with h' | ⟨y, hy, hxy⟩
          · exact Or.inl (List.mem_cons_of_mem a h')
          · exact Or.inr ⟨y, List.mem_cons_of_mem a hy, hxy⟩

theorem length_filter_updateFirst_le {q r : α → Bool} {f : α → α}
    (hf : ∀ x, r (f x) = true → r x = true) :
    ∀ (l : List α), ((updateFirst q f l).filter r).length ≤ (l.filter r).length
  | [] => Nat.le_refl _
  | x :: xs => by
      by_cases hx : q x
      · simp only [updateFirst, hx, if_pos, List.filter_cons]
        by_cases hr : r (f x)
        · simp [hr, hf _ hr]
        · by_cases hrx : r x <;> simp [hr, hrx] <;> omega
      · simp only [updateFirst, hx, if_neg, Bool.false_eq_true, List.filter_cons]
        have := length_filter_updateFirst_le (q := q) hf xs
        by_cases hrx : r x <;> simp [hrx] <;> omega

theorem length_filter_map_le {r : α → Bool} {f : α → α}
    (hf : ∀ x, r (f x) = true → r x = true) :
    ∀ (l : List α), ((l.map f).filter r).length ≤ (l.filter r).length
  | [] => Nat.le_refl _
  | x :: xs => by
      simp only [List.map_cons, List.filter_cons]
      have := length_filter_map_le (f := f) hf xs
      by_cases hr : r (f x)
      · simp [hr, hf _ hr]; omega
      · by_cases hrx : r x <;> simp [hr, hrx] <;> omega

theorem find?_updateFirst_self {q : α → Bool} {f : α → α}
    (hf : ∀ x, q (f x) = q x) :
    ∀ (l : List α), (updateFirst q f l).find? q = (l.find? q).map f
  | [] => rfl
  | x :: xs => by
      by_cases hx : q x
      · simp [updateFirst, hx, List.find?_cons, hf x]
      · have hx' : q x = false := Bool.eq_false_iff.mpr hx
        simp [updateFirst, hx', List.find?_cons, (hf x).trans hx',
          find?_updateFirst_self hf xs]

theorem find?_updateFirst_other {q r : α → Bool} {f : α → α}
    (hr : ∀ x, r (f x) = r x) (hqr : ∀ x, q x = true → r x = false) :
    ∀ (l : List α), (updateFirst q f l).find? r = l.find? r
  | [] => rfl
  | x :: xs => by
      by_cases hx : q x
      · have hrx : r x = false := hqr x hx
        simp [updateFirst, hx, List.find?_cons, (hr x).trans hrx, hrx]
      · by_cases hrx : r x <;>
          simp [updateFirst, hx, List.find?_cons, hrx, find?_updateFirst_other hr hqr xs]

theorem foldr_max_le {n : Nat} : ∀ {l : List Nat}, (∀ x ∈ l, x ≤ n) → l.foldr Nat.max 0 ≤ n
  | [], _ => Nat.zero_le n
  | x :: xs, h => by
      simp only [List.foldr_cons]
      exact Nat.max_le.mpr ⟨h x (List.mem_cons_self x xs),
        foldr_max_le fun y hy => h y (List.mem_cons_of_mem x hy)⟩

theorem le_foldr_max : ∀ {l : List Nat} {x : Nat}, x ∈ l → x ≤ l.foldr Nat.max 0
  | y :: ys, x, hx => by
      simp only [List.foldr_cons]
      rcases List.mem_cons.mp hx with h | h
      · exact h ▸ Nat.le_max_left _ _
      · exact Nat.le_trans (le_foldr_max h) (Nat.le_max_right _ _)

end ListLemmas

/-! ## Sorting and renumbering lemmas -/

theorem insertByJoin_perm (e : WaitlistEntry) :
    ∀ (l : List WaitlistEntry), (insertByJoin e l).Perm (e :: l)
  | [] => List.Perm.refl _
  | x :: xs => by
      by_cases h : e.join_time < x.join_time
      · simp [insertByJoin, h]
      · simp only [insertByJoin, h, if_neg, if_false]
        exact ((insertByJoin_perm e xs).cons x).trans (List.Perm.swap e x xs)

theorem sortByJoinTime_perm : ∀ (l : List WaitlistEntry), (sortByJoinTime l).Perm l
  | [] => List.Perm.refl _
  | x :: xs => (insertByJoin_perm x (sortByJoinTime xs)).trans ((sortByJoinTime_perm xs).cons x)

/-! ## The waitlist-position invariant and the reorder lemmas -/

/-- Spec §8: the waiting positions of a class are exactly `{1..N}`,
`N` the number of waiting entries — stated as a permutation with
`range' 1 N`, which rules out gaps and duplicates at once. -/
def WaitInv (st : State) (cid : String) : Prop :=
  (waitingPositions st cid).Perm
    (List.range' 1 (waitingEntries st cid).length)

/-- Renumbering a list by each element's own index (plus one) under a
nodup key yields exactly `1, 2, …, length`. -/
theorem map_renumber :
    ∀ (l : List WaitlistEntry), (l.map (·.id)).Nodup →
      (l.map fun e => match l.findIdx? (fun x => x.id = e.id) with
        | some i => i + 1
        | none => e.position) = List.range' 1 l.length
  | [], _ => rfl
  | a :: t, hnd => by
      rw [List.map_cons, List.nodup_cons] at hnd
      have hstep : ∀ e ∈ t,
          (match (a :: t).findIdx? (fun x => x.id = e.id) with
            | some i => i + 1 | none => e.position)
          = 1 + (match t.findIdx? (fun x => x.id = e.id) with
            | some i => i + 1 | none => e.position) := by
        intro e he
        have hne : ¬ (a.id = e.id) := fun h =>
          hnd.1 (h ▸ List.mem_map_of_mem (·.id) he)
        have hfound : ∃ j, t.findIdx? (fun x => x.id = e.id) = some j := by
          cases h : t.findIdx? (fun x => x.id = e.id) with
          | some j => exact ⟨j, rfl⟩
          | none =>
              have := (List.findIdx?_eq_none_iff.mp h) e he
              simp at this
        rcases hfound with ⟨j, hj⟩
        have hcons : (a :: t).findIdx? (fun x => x.id = e.id) = some (j + 1) := by
          rw [List.findIdx?_cons]
          simp [hne, hj]
        rw [hcons, hj]
        show j + 1 + 1 = 1 + (j + 1)
        omega
      have hhead : (a :: t).findIdx? (fun x => x.id = a.id) = some 0 := by
        simp [List.findIdx?_cons]
      have htail : (t.map fun e =>
          match (a :: t).findIdx? (fun x => x.id = e.id) with
          | some i => i + 1 | none => e.position)
          = (t.map fun e => match t.findIdx? (fun x => x.id = e.id) with
              | some i => i + 1 | none => e.position).map (fun x => 1 + x) := by
        rw [List.map_map]
        exact List.map_congr_left fun e he => hstep e he
      rw [List.map_cons, hhead, htail, map_renumber t hnd.2]
      have : (List.range' 1 t.length).map (fun x => 1 + x) = List.range' 2 t.length :=
        List.map_add_range' 1 1 t.length 1
      rw [this]
      simp [List.range']

/-- `reorder_waitlist` leaves the ids of the waitlist unchanged. -/
theorem reorder_waitlist_ids (st : State) (cid : String) :
    (reorder_waitlist st cid).waitlist.map (·.id) = st.waitlist.map (·.id) := by
  simp only [reorder_waitlist, List.map_map]
  refine List.map_congr_left fun e _ => ?_
  cases h : (sortByJoinTime (waitingEntries st cid)).findIdx? (fun x => x.id = e.id) <;>
    simp [Function.comp, h]

/-- `reorder_waitlist` touches only the waitlist table. -/
theorem reorder_waitlist_rest (st : State) (cid : String) :
    (reorder_waitlist st cid).classes = st.classes ∧
    (reorder_waitlist st cid).bookings = st.bookings ∧
    (reorder_waitlist st cid).memberships = st.memberships :=
  ⟨rfl, rfl, rfl⟩

/-- Filtering commutes with mapping a function that does not change the
filtered predicate. -/
theorem filter_map_preserving {α : Type} {q : α → Bool} {f : α → α}
    (hf : ∀ e, q (f e) = q e) (l : List α) :
    (l.map f).filter q = (l.filter q).map f := by
  rw [List.map_filter]
  exact congrArg _ (List.filter_congr fun e _ => hf e)

/-- The per-entry update of `reorder_waitlist` keeps id, class and
status, so filters over class/status commute with it. -/
theorem waitingEntries_reorder (st : State) (cid c : String) :
    waitingEntries (reorder_waitlist st cid) c =
      (waitingEntries st c).map fun e =>
        match (sortByJoinTime (waitingEntries st cid)).findIdx?
            (fun x => x.id = e.id) with
        | some i => { e with position := i + 1 }
        | none => e := by
  have hwl : (reorder_waitlist st cid).waitlist = st.waitlist.map fun e =>
      match (sortByJoinTime (waitingEntries st cid)).findIdx?
          (fun x => x.id = e.id) with
      | some i => { e with position := i + 1 }
      | none => e := rfl
  unfold waitingEntries
  rw [hwl]
  refine filter_map_preserving (fun e => ?_) st.waitlist
  cases h : (sortByJoinTime (waitingEntries st cid)).findIdx? (fun x => x.id = e.id) with
  | none => rfl
  | some i => rfl

/-- Distinct rows of a list with nodup ids have distinct ids. -/
theorem id_inj_of_nodup {l : List WaitlistEntry}
    (hnd : (l.map (·.id)).Nodup) {x y : WaitlistEntry}
    (hx : x ∈ l) (hy : y ∈ l) (hxy : x.id = y.id) : x = y :=
  List.inj_on_of_nodup_map hnd hx hy hxy

/-- After `reorder_waitlist st cid`, the waiting positions of class
`cid` are exactly `1..N`. -/
theorem reorder_waitlist_establishes (st : State) (cid : String)
    (hnd : (st.waitlist.map (·.id)).Nodup) :
    WaitInv (reorder_waitlist st cid) cid := by
  have hperm : (sortByJoinTime (waitingEntries st cid)).Perm (waitingEntries st cid) :=
    sortByJoinTime_perm _
  have hndW : ((waitingEntries st cid).map (·.id)).Nodup :=
    (((List.filter_sublist st.waitlist).map (·.id)).nodup hnd)
  have hndE : ((sortByJoinTime (waitingEntries st cid)).map (·.id)).Nodup :=
    ((hperm.map (·.id)).nodup_iff).mpr hndW
  unfold WaitInv waitingPositions
  rw [waitingEntries_reorder st cid cid, List.map_map, List.length_map]
  have hpt : ((waitingEntries st cid).map
      ((fun e : WaitlistEntry => e.position) ∘ fun e =>
        match (sortByJoinTime (waitingEntries st cid)).findIdx?
            (fun x => x.id = e.id) with
        | some i => { e with position := i + 1 }
        | none => e))
      = (waitingEntries st cid).map fun e =>
          match (sortByJoinTime (waitingEntries st cid)).findIdx?
              (fun x => x.id = e.id) with
          | some i => i + 1
          | none => e.position := by
    refine List.map_congr_left fun e _ => ?_
    simp only [Function.comp_apply]
    cases h : (sortByJoinTime (waitingEntries st cid)).findIdx? (fun x => x.id = e.id) <;>
      rfl
  rw [hpt]
  have hlast : ((sortByJoinTime (waitingEntries st cid)).map fun e =>
      match (sortByJoinTime (waitingEntries st cid)).findIdx?
          (fun x => x.id = e.id) with
      | some i => i + 1
      | none => e.position) = List.range' 1 (waitingEntries st cid).length := by
    rw [map_renumber _ hndE, hperm.length_eq]
  exact hlast ▸ (hperm.map _).symm

/-- `reorder_waitlist st cid` does not move entries of other classes. -/
theorem waitingEntries_reorder_other (st : State) (cid c : String)
    (hnd : (st.waitlist.map (·.id)).Nodup) (hne : c ≠ cid) :
    waitingEntries (reorder_waitlist st cid) c = waitingEntries st c := by
  rw [waitingEntries_reorder st cid c]
  refine (List.map_congr_left fun e he => ?_).trans (List.map_id _)
  have hmem := List.mem_filter.mp he
  have hec : e.class_id = c := by
    have h2 := hmem.2
    simp only [decide_eq_true_eq] at h2
    exact h2.1
  have hnone : (sortByJoinTime (waitingEntries st cid)).findIdx?
      (fun x => x.id = e.id) = none := by
    apply List.findIdx?_eq_none_iff.mpr
    intro x hx
    have hxW : x ∈ waitingEntries st cid := (sortByJoinTime_perm _).mem_iff.mp hx
    have hxmem := List.mem_filter.mp hxW
    have hxcid : x.class_id = cid := by
      have h2 := hxmem.2
      simp only [decide_eq_true_eq] at h2
      exact h2.1
    simp only [decide_eq_false_iff_not]
    intro hid
    have hxe : x = e := id_inj_of_nodup hnd hxmem.1 hmem.1 hid
    exact hne (by rw [← hec, ← hxe, hxcid])
  rw [hnone]
  rfl

/-- `minByPosition` of a nonempty list never fails. -/
theorem minByPosition_cons (x : WaitlistEntry) (xs : List WaitlistEntry) :
    ∃ e, minByPosition (x :: xs) = some e := by
  simp only [minByPosition]
  cases minByPosition xs with
  | none => exact ⟨x, rfl⟩
  | some m =>
      by_cases hle : x.position ≤ m.position
      · exact ⟨x, by simp [hle]⟩
      · exact ⟨m, by simp [hle]⟩

/-- The result of `minByPosition` is an element of the list. -/
theorem minByPosition_mem :
    ∀ {l : List WaitlistEntry} {e : WaitlistEntry}, minByPosition l = some e → e ∈ l
  | x :: xs, e, h => by
      cases hm : minByPosition xs with
      | none =>
          simp only [minByPosition, hm] at h
          exact (Option.some_inj.mp h) ▸ List.mem_cons_self x xs
      | some m =>
          simp only [minByPosition, hm] at h
          by_cases hle : x.position ≤ m.position
          · rw [if_pos hle] at h
            exact (Option.some_inj.mp h) ▸ List.mem_cons_self x xs
          · rw [if_neg hle] at h
            exact List.mem_cons_of_mem x
              (minByPosition_mem ((Option.some_inj.mp h) ▸ hm))

/-- The result of `minByPosition` has the least position in the list. -/
theorem minByPosition_le :
    ∀ {l : List WaitlistEntry} {e : WaitlistEntry}, minByPosition l = some e →
      ∀ x ∈ l, e.position ≤ x.position
  | x :: xs, e, h => by
      cases hm : minByPosition xs with
      | none =>
          simp only [minByPosition, hm] at h
          have hx : x = e := Option.some_inj.mp h
          intro y hy
          rcases List.mem_cons.mp hy with hyx | hyxs
          · exact hx ▸ hyx ▸ Nat.le_refl _
          · rcases xs with _ | ⟨z, zs⟩
            · cases hyxs
            · rcases minByPosition_cons z zs with ⟨e', he'⟩
              rw [he'] at hm
              cases hm
      | some m =>
          simp only [minByPosition, hm] at h
          by_cases hle : x.position ≤ m.position
          · rw [if_pos hle] at h
            have hx : x = e := Option.some_inj.mp h
            intro y hy
            rcases List.mem_cons.mp hy with hyx | hyxs
            · exact hx ▸ hyx ▸ Nat.le_refl _
            · exact hx ▸ Nat.le_trans hle (minByPosition_le hm y hyxs)
          · rw [if_neg hle] at h
            have hx : m = e := Option.some_inj.mp h
            intro y hy
            rcases List.mem_cons.mp hy with hyx | hyxs
            · exact hx ▸ hyx ▸ Nat.le_of_lt (Nat.lt_of_not_le hle)
            · exact hx ▸ minByPosition_le hm y hyxs

/-- Mapping a projection over an `updateFirst` keyed by a nodup key
turns the positional update into a pointwise conditional. -/
theorem map_updateFirst_eq_if {α β : Type} {g : α → β} {f : α → α}
    {k : α → String} {a : String} :
    ∀ {l : List α}, (l.map k).Nodup →
      (updateFirst (fun x => k x = a) f l).map g
        = l.map (fun x => if k x = a then g (f x) else g x)
  | [], _ => rfl
  | x :: xs, hnd => by
      rw [List.map_cons, List.nodup_cons] at hnd
      by_cases hx : k x = a
      · simp only [updateFirst, hx, decide_True, if_pos, List.map_cons, if_true]
        refine congrArg _ ?_
        refine (List.map_congr_left fun y hy => ?_)
        have hya : ¬ (k y = a) := fun hya =>
          hnd.1 (hx ▸ hya ▸ List.mem_map_of_mem k hy)
        rw [if_neg hya]
      · simp only [updateFirst, hx, decide_False, if_neg, List.map_cons, if_false,
          Bool.false_eq_true]
        exact congrArg _ (map_updateFirst_eq_if hnd.2)

/-- The waitlist of `reorder_waitlist`, as a plain map. -/
theorem reorder_waitlist_waitlist (st : State) (cid : String) :
    (reorder_waitlist st cid).waitlist = st.waitlist.map fun e =>
      match (sortByJoinTime (waitingEntries st cid)).findIdx?
          (fun x => x.id = e.id) with
      | some i => { e with position := i + 1 }
      | none => e := rfl

/-- Any projection that ignores `position` is unchanged by
`reorder_waitlist`. -/
theorem reorder_preserves_proj {β : Type} (g : WaitlistEntry → β)
    (hg : ∀ (e : WaitlistEntry) (i : Nat), g { e with position := i } = g e)
    (st : State) (cid : String) :
    (reorder_waitlist st cid).waitlist.map g = st.waitlist.map g := by
  rw [reorder_waitlist_waitlist, List.map_map]
  refine List.map_congr_left fun e _ => ?_
  simp only [Function.comp_apply]
  cases h : (sortByJoinTime (waitingEntries st cid)).findIdx? (fun x => x.id = e.id) with
  | none => rfl
  | some i => exact hg e (i + 1)

/-- `process_waitlist` touches only the waitlist table. -/
theorem process_waitlist_rest (st : State) (now : Nat) (cid : String) :
    (process_waitlist st now cid).classes = st.classes ∧
    (process_waitlist st now cid).bookings = st.bookings ∧
    (process_waitlist st now cid).memberships = st.memberships := by
  unfold process_waitlist
  cases st.classes.find? (fun c => c.id = cid) with
  | none => exact ⟨rfl, rfl, rfl⟩
  | some cls =>
      dsimp only
      by_cases hcap : cls.capacity ≤ activeBookingCount st cid
      · rw [if_pos hcap]; exact ⟨rfl, rfl, rfl⟩
      · rw [if_neg hcap]
        cases minByPosition (waitingEntries st cid) with
        | none => exact ⟨rfl, rfl, rfl⟩
        | some e => exact ⟨rfl, rfl, rfl⟩

/-- `process_waitlist` keeps the waitlist's ids (in order). -/
theorem process_waitlist_ids (st : State) (now : Nat) (cid : String) :
    (process_waitlist st now cid).waitlist.map (·.id) = st.waitlist.map (·.id) := by
  unfold process_waitlist
  cases st.classes.find? (fun c => c.id = cid) with
  | none => rfl
  | some cls =>
      dsimp only
      by_cases hcap : cls.capacity ≤ activeBookingCount st cid
      · rw [if_pos hcap]
      · rw [if_neg hcap]
        cases minByPosition (waitingEntries st cid) with
        | none => rfl
        | some e =>
            dsimp only
            rw [reorder_waitlist_ids]
            dsimp only
            refine map_updateFirst (fun x => ?_) st.waitlist
            rfl

/-- Searching a nodup-keyed list for a member's key finds that member. -/
theorem find?_id_of_mem_nodup {α : Type} {g : α → String} :
    ∀ {l : List α} {m : α}, (l.map g).Nodup → m ∈ l →
      l.find? (fun x => g x = g m) = some m
  | x :: xs, m, hnd, hm => by
      rw [List.map_cons, List.nodup_cons] at hnd
      rcases List.mem_cons.mp hm with hxm | hxs
      · subst hxm
        exact List.find?_cons_of_pos _ (by simp)
      · have hne : ¬ (g x = g m) := fun h =>
          hnd.1 (h ▸ List.mem_map_of_mem g hxs)
        rw [List.find?_cons_of_neg _ (by simp [hne])]
        exact find?_id_of_mem_nodup hnd.2 hxs

/-- `WaitInv` holds whenever the waiting positions are literally
`1, 2, …, N` in store order (used to check concrete states). -/
theorem waitinv_of_eq {st : State} {cid : String}
    (h : waitingPositions st cid = List.range' 1 (waitingEntries st cid).length) :
    WaitInv st cid := by
  unfold WaitInv
  rw [h]

/-! ## Concrete fixtures for witnesses -/

/-- A bookable class: capacity 2, starts at 100, 1 credit per booking. -/
def wCls : Class :=
  { id := "C1", trainer_id := "T1", start_time := 100, end_time := 110,
    capacity := 2, is_cancelled := false, cancellation_reason := none,
    class_type := { credits_required := 1 } }

/-- An active membership of user U1 with 3 credits, valid until 1000. -/
def wMem : Membership :=
  { id := "M1", user_id := "U1", status := MStatus.active, end_date := 1000,
    remaining_credits := some 3 }

/-! ## C8: createBooking failure guards -/

/-- **C8.** `createBooking` failure guards, in the order the code checks
them, each leaving the state unchanged (no booking, no waitlist entry,
no credit change): 404 if the class does not exist; 400 if the class
start time is in the past; 400 if the class is cancelled; 403 if the
user has no active unexpired membership; 403 if the membership tracks
finite credits below the class's requirement. -/
theorem create_booking_guards_C8 (st : State) (now : Nat) (u cid nid : String) :
    (st.classes.find? (fun c => c.id = cid) = none →
      create_booking st now u cid nid = (Response.err 404 "Class not found", st))
  ∧ (∀ cls, st.classes.find? (fun c => c.id = cid) = some cls →
      cls.start_time < now →
      create_booking st now u cid nid =
        (Response.err 400 "Cannot book a class that has already started", st))
  ∧ (∀ cls, st.classes.find? (fun c => c.id = cid) = some cls →
      ¬ cls.start_time < now → cls.is_cancelled = true →
      create_booking st now u cid nid =
        (Response.err 400 "Cannot book a cancelled class", st))
  ∧ (∀ cls, st.classes.find? (fun c => c.id = cid) = some cls →
      ¬ cls.start_time < now → cls.is_cancelled = false →
      st.bookings.find? (fun b => b.class_id = cid ∧ b.user_id = u ∧
        (b.status = BStatus.booked ∨ b.status = BStatus.attended)) = none →
      findActiveMembership now st.memberships u = none →
      create_booking st now u cid nid =
        (Response.err 403 "You do not have an active membership", st))
  ∧ (∀ cls m, st.classes.find? (fun c => c.id = cid) = some cls →
      ¬ cls.start_time < now → cls.is_cancelled = false →
      st.bookings.find? (fun b => b.class_id = cid ∧ b.user_id = u ∧
        (b.status = BStatus.booked ∨ b.status = BStatus.attended)) = none →
      findActiveMembership now st.memberships u = some m →
      insufficientCredits m cls.class_type.credits_required = true →
      create_booking st now u cid nid =
        (Response.err 403 "You do not have enough credits", st)) := by
  refine ⟨fun h => by simp [create_booking, h], fun cls h1 h2 => ?_,
    fun cls h1 h2 h3 => ?_, fun cls h1 h2 h3 h4 h5 => ?_,
    fun cls m h1 h2 h3 h4 h5 h6 => ?_⟩
  · simp only [create_booking, h1]
    rw [if_pos h2]
  · simp only [create_booking, h1]
    rw [if_neg h2, if_pos h3]
  · simp only [create_booking, h1, h4, h5]
    rw [if_neg h2, if_neg (by simp [h3])]
  · simp only [create_booking, h1, h4, h5, h6]
    rw [if_neg h2, if_neg (by simp [h3]), if_pos trivial]

/-- Witness for C8: the guard theorem applied at concrete inputs — an
absent class id, then a class whose start time has passed. -/
theorem create_booking_guards_C8_witness :
    create_booking ⟨[wCls], [], [], [wMem]⟩ 10 "U1" "nope" "b9" =
      (Response.err 404 "Class not found", ⟨[wCls], [], [], [wMem]⟩)
  ∧ create_booking ⟨[wCls], [], [], [wMem]⟩ 500 "U1" "C1" "b9" =
      (Response.err 400 "Cannot book a class that has already started",
        ⟨[wCls], [], [], [wMem]⟩) :=
  ⟨(create_booking_guards_C8 ⟨[wCls], [], [], [wMem]⟩ 10 "U1" "nope" "b9").1 (by decide),
   (create_booking_guards_C8 ⟨[wCls], [], [], [wMem]⟩ 500 "U1" "C1" "b9").2.1 wCls
     (by decide) (by decide)⟩

/-! ## C4: full-class routing to the waitlist -/

/-- A full class: capacity 0, nothing booked. -/
def c4Cls : Class :=
  { id := "C1", trainer_id := "T1", start_time := 100, end_time := 110,
    capacity := 0, is_cancelled := false, cancellation_reason := none,
    class_type := { credits_required := 1 } }

/-- U1's old waitlist entry for C1, already removed. -/
def c4Removed : WaitlistEntry :=
  { id := "W0", user_id := "U1", class_id := "C1", position := 1,
    join_time := 5, status := WStatus.removed, notification_time := none }

/-- **C4 counterexample.** A user passing every earlier check books a
full class while holding a *removed* waitlist entry for it: the claim
says a fresh WaitlistEntry is created and its position returned, but the
insert violates the DB unique constraint on `(user_id, class_id)`
(`unique_user_class_waitlist`, `src/models/class.py`), so the request
fails with a 500 and no entry is created. -/
theorem create_booking_fullclass_C4_cex :
    create_booking ⟨[c4Cls], [], [c4Removed], [wMem]⟩ 10 "U1" "C1" "w9" =
      (Response.err 500
        "UNIQUE constraint failed: waitlist_entries.user_id, waitlist_entries.class_id",
       ⟨[c4Cls], [], [c4Removed], [wMem]⟩) := by
  decide

/-- **C4 (amended).** For a user passing the earlier `createBooking`
checks, when the class is full no Booking is created and no credits are
deducted; the call fails with 409 if the user already has a
status=waiting entry for the class, and — provided the user has no
waitlist entry of *any* status for the class (otherwise the unique
`(user_id, class_id)` constraint aborts the insert with a 500) — it
creates a WaitlistEntry with status=waiting and
position = (max position among waiting entries) + 1 (1 if none) and
returns that position, not a booking id. -/
theorem create_booking_fullclass_C4 (st : State) (now : Nat) (u cid nid : String)
    (cls : Class) (m : Membership)
    (h1 : st.classes.find? (fun c => c.id = cid) = some cls)
    (h2 : ¬ cls.start_time < now) (h3 : cls.is_cancelled = false)
    (h4 : st.bookings.find? (fun b => b.class_id = cid ∧ b.user_id = u ∧
      (b.status = BStatus.booked ∨ b.status = BStatus.attended)) = none)
    (h5 : findActiveMembership now st.memberships u = some m)
    (h6 : insufficientCredits m cls.class_type.credits_required = false)
    (h7 : cls.capacity ≤ activeBookingCount st cid) :
    (∀ w, st.waitlist.find? (fun e => e.class_id = cid ∧ e.user_id = u ∧
        e.status = WStatus.waiting) = some w →
      create_booking st now u cid nid =
        (Response.err 409 "You are already on the waitlist for this class", st))
  ∧ (st.waitlist.find? (fun e => e.class_id = cid ∧ e.user_id = u ∧
        e.status = WStatus.waiting) = none →
      (st.waitlist.any fun e => e.user_id = u ∧ e.class_id = cid) = false →
      create_booking st now u cid nid =
        (Response.waitlisted (maxWaitingPosition st cid + 1),
          { st with waitlist := st.waitlist ++
              [{ id := nid, user_id := u, class_id := cid,
                 position := maxWaitingPosition st cid + 1, join_time := now,
                 status := WStatus.waiting, notification_time := none }] })) := by
  constructor
  · intro w hw
    simp only [create_booking, h1, h4, h5, h6, hw]
    rw [if_neg h2, if_neg (by simp [h3]), if_neg (by simp [h6]), if_pos h7]
  · intro hw hany
    simp only [create_booking, h1, h4, h5, h6, hw, hany]
    rw [if_neg h2, if_neg (by simp [h3]), if_neg (by simp [h6]), if_pos h7,
      if_neg (by simp [hany])]

/-- A competing user's waiting entry for the full class C1, position 1. -/
def c4Other : WaitlistEntry :=
  { id := "W1", user_id := "U2", class_id := "C1", position := 1,
    join_time := 5, status := WStatus.waiting, notification_time := none }

/-- U1's own waiting entry for the full class C1. -/
def c4Mine : WaitlistEntry :=
  { id := "W1", user_id := "U1", class_id := "C1", position := 1,
    join_time := 5, status := WStatus.waiting, notification_time := none }

/-- Witness for the amended C4: 409 when U1 already waits; a fresh join
behind U2's position-1 entry lands at position 2. -/
theorem create_booking_fullclass_C4_witness :
    create_booking ⟨[c4Cls], [], [c4Mine], [wMem]⟩ 10 "U1" "C1" "w9" =
      (Response.err 409 "You are already on the waitlist for this class",
       ⟨[c4Cls], [], [c4Mine], [wMem]⟩)
  ∧ create_booking ⟨[c4Cls], [], [c4Other], [wMem]⟩ 10 "U1" "C1" "w9" =
      (Response.waitlisted 2,
       ⟨[c4Cls], [], [c4Other,
          { id := "w9", user_id := "U1", class_id := "C1", position := 2,
            join_time := 10, status := WStatus.waiting,
            notification_time := none }], [wMem]⟩) :=
  ⟨(create_booking_fullclass_C4 ⟨[c4Cls], [], [c4Mine], [wMem]⟩ 10 "U1" "C1" "w9"
      c4Cls wMem (by decide) (by decide) (by decide) (by decide) (by decide)
      (by decide) (by decide)).1 c4Mine (by decide),
   (create_booking_fullclass_C4 ⟨[c4Cls], [], [c4Other], [wMem]⟩ 10 "U1" "C1" "w9"
      c4Cls wMem (by decide) (by decide) (by decide) (by decide) (by decide)
      (by decide) (by decide)).2 (by decide) (by decide)⟩

/-! ## C9: Conflict only for active bookings -/

/-- U1's earlier booking for C1, already cancelled. -/
def c9Cancelled : Booking :=
  { id := "B0", user_id := "U1", class_id := "C1", status := BStatus.cancelled,
    credits_used := 1, booking_time := 1, cancellation_time := some 2,
    cancellation_reason := none }

/-- **C9 (code bug).** The claim — matching §3 of the spec and the
status-filtered duplicate check at `booking.py:172-176` — says a user
whose previous booking for the class is cancelled can book it again.
The application-level Conflict check indeed only matches
booked/attended, but the DB unique constraint
`unique_user_class_booking` (`src/models/class.py:71-73`) is on plain
`(user_id, class_id)`, so the new INSERT raises IntegrityError: the
route rolls back and returns 500, and no booking is created.  This
theorem evaluates the workflow at the failing input: U1 re-books class
C1 (capacity 2, empty) after their previous booking was cancelled. -/
theorem create_booking_rebook_C9_bug :
    create_booking ⟨[wCls], [c9Cancelled], [], [wMem]⟩ 10 "U1" "C1" "B1" =
      (Response.err 500 "UNIQUE constraint failed: bookings.user_id, bookings.class_id",
       ⟨[wCls], [c9Cancelled], [], [wMem]⟩) := by
  decide

/-! ## C5: promotion is notification-only -/

/-- The capacity-1 class of the spec's §8 scenario. -/
def c5Cls : Class :=
  { id := "C", trainer_id := "T", start_time := 100, end_time := 110,
    capacity := 1, is_cancelled := false, cancellation_reason := none,
    class_type := { credits_required := 1 } }

/-- User A's membership in the scenario (4 credits left after booking). -/
def c5MemA : Membership :=
  { id := "MA", user_id := "A", status := MStatus.active, end_date := 1000,
    remaining_credits := some 4 }

/-- User B's unlimited membership in the scenario. -/
def c5MemB : Membership :=
  { id := "MB", user_id := "B", status := MStatus.active, end_date := 1000,
    remaining_credits := none }

/-- A's active booking of the capacity-1 class. -/
def c5BkA : Booking :=
  { id := "bkA", user_id := "A", class_id := "C", status := BStatus.booked,
    credits_used := 1, booking_time := 10, cancellation_time := none,
    cancellation_reason := none }

/-- B's waitlist entry at position 1. -/
def c5WlB : WaitlistEntry :=
  { id := "wlB", user_id := "B", class_id := "C", position := 1,
    join_time := 11, status := WStatus.waiting, notification_time := none }

/-- Scenario state: A booked, B waiting at position 1, capacity 1. -/
def c5St : State := ⟨[c5Cls], [c5BkA], [c5WlB], [c5MemA, c5MemB]⟩

/-- **C5.** `promoteNext` (`process_waitlist`) is notification-only:
(1) a no-op when the class's active count has reached capacity;
(2) a no-op when no entry is waiting;
(3) it never creates a Booking or touches credits (bookings and
memberships unchanged, in every case);
(4) otherwise it flips exactly the minimal-position waiting entry to
status=notified with notification_time = now — under the position
invariant the minimum is strict, so the join_time tie-break is vacuous —
leaving every other entry's status untouched, and reorders the
remaining waiting entries back to positions `1..N'`;
(5) in the capacity-1 scenario (A booked, B waiting at position 1),
A's cancellation leaves B's entry status=notified at position 1. -/
theorem process_waitlist_C5 (st : State) (now : Nat) (cid : String) :
    (∀ cls, st.classes.find? (fun c => c.id = cid) = some cls →
      cls.capacity ≤ activeBookingCount st cid →
      process_waitlist st now cid = st)
  ∧ (waitingEntries st cid = [] → process_waitlist st now cid = st)
  ∧ ((process_waitlist st now cid).bookings = st.bookings
      ∧ (process_waitlist st now cid).memberships = st.memberships)
  ∧ (∀ cls e, st.classes.find? (fun c => c.id = cid) = some cls →
      activeBookingCount st cid < cls.capacity →
      minByPosition (waitingEntries st cid) = some e →
      (st.waitlist.map (·.id)).Nodup → WaitInv st cid →
        (e.class_id = cid ∧ e.status = WStatus.waiting)
      ∧ (∀ e' ∈ waitingEntries st cid, e' ≠ e → e.position < e'.position)
      ∧ (process_waitlist st now cid).waitlist.map
            (fun x => (x.id, x.status, x.notification_time))
          = st.waitlist.map (fun x =>
              if x.id = e.id then (x.id, WStatus.notified, some now)
              else (x.id, x.status, x.notification_time))
      ∧ WaitInv (process_waitlist st now cid) cid)
  ∧ cancel_booking c5St 12 "bkA" "A" "member" none =
      (Response.ok "Booking cancelled successfully",
        ⟨[c5Cls],
         [{ c5BkA with status := BStatus.cancelled, cancellation_time := some 12 }],
         [{ c5WlB with status := WStatus.notified, notification_time := some 12 }],
         [{ c5MemA with remaining_credits := some 5 }, c5MemB]⟩) := by
  refine ⟨fun cls hf hcap => ?_, fun hemp => ?_,
    (process_waitlist_rest st now cid).2, fun cls e hf hcap hmin hnd hinv => ?_,
    by decide⟩
  · simp only [process_waitlist, hf]
    rw [if_pos hcap]
  · unfold process_waitlist
    cases hf : st.classes.find? (fun c => c.id = cid) with
    | none => rfl
    | some cls =>
        dsimp only
        by_cases hcap : cls.capacity ≤ activeBookingCount st cid
        · rw [if_pos hcap]
        · rw [if_neg hcap, hemp]
          rfl
  · have hmem : e ∈ waitingEntries st cid := minByPosition_mem hmin
    have hfil := List.mem_filter.mp hmem
    have hcs : e.class_id = cid ∧ e.status = WStatus.waiting := by
      have h2 := hfil.2
      simp only [decide_eq_true_eq] at h2
      exact h2
    have hndpos : (waitingPositions st cid).Nodup :=
      (hinv.nodup_iff).mpr (List.nodup_range' ..)
    have hproc : process_waitlist st now cid = reorder_waitlist
        { st with waitlist := (updateFirst (fun x => x.id = e.id)
            (fun x => { x with
              status := WStatus.notified,
              notification_time := some now }) st.waitlist) } cid := by
      simp only [process_waitlist, hf]
      rw [if_neg (Nat.not_le.mpr hcap), hmin]
    have hideq : (updateFirst (fun x => x.id = e.id)
        (fun x => { x with
          status := WStatus.notified,
          notification_time := some now }) st.waitlist).map (·.id)
        = st.waitlist.map (·.id) := by
      refine map_updateFirst (fun x => ?_) st.waitlist
      rfl
    refine ⟨hcs, fun e' he' hne => ?_, ?_, ?_⟩
    · have hle := minByPosition_le hmin e' he'
      have hps : e.position ≠ e'.position := fun hpos => hne
        (List.inj_on_of_nodup_map hndpos he' hmem hpos.symm)
      exact Nat.lt_of_le_of_ne hle hps
    · rw [hproc]
      rw [reorder_preserves_proj (fun x => (x.id, x.status, x.notification_time))
        (fun x i => rfl) _ cid]
      dsimp only
      refine (map_updateFirst_eq_if hnd).trans ?_
      refine List.map_congr_left fun x _ => ?_
      by_cases hid : x.id = e.id <;> simp [hid]
    · rw [hproc]
      refine reorder_waitlist_establishes _ cid ?_
      dsimp only
      rw [hideq]
      exact hnd

/-- Witness state for the main C5 conjunct: the capacity-1 class with
nothing booked and B waiting at position 1. -/
def c5WSt : State := ⟨[c5Cls], [], [c5WlB], [c5MemB]⟩

/-- Witness for C5: notification of B's entry, computed from the
theorem at the concrete free-spot state. -/
theorem process_waitlist_C5_witness :
    (process_waitlist c5WSt 12 "C").waitlist.map
        (fun x => (x.id, x.status, x.notification_time))
      = c5WSt.waitlist.map (fun x =>
          if x.id = "wlB" then (x.id, WStatus.notified, some 12)
          else (x.id, x.status, x.notification_time)) :=
  ((process_waitlist_C5 c5WSt 12 "C").2.2.2.1 c5Cls c5WlB (by decide) (by decide)
    (by decide) (by decide) (waitinv_of_eq (by decide))).2.2.1

/-- Unfolding of the success path of `cancel_booking`: the booking is
cancelled in place, the refund block runs, then `process_waitlist`. -/
theorem cancel_booking_eq (st : State) (now : Nat)
    (bid au ar : String) (reason : Option String) (b : Booking) (cls : Class)
    (hb : st.bookings.find? (fun x => x.id = bid) = some b)
    (hauth : ¬ (b.user_id ≠ au ∧ ar ≠ "admin" ∧ ar ≠ "trainer"))
    (hstatus : b.status = BStatus.booked)
    (hcls : st.classes.find? (fun c => c.id = b.class_id) = some cls)
    (hstart : ¬ cls.start_time < now) :
    cancel_booking st now bid au ar reason =
      (Response.ok "Booking cancelled successfully",
        process_waitlist
          { st with
            bookings := (updateFirst (fun x => x.id = bid)
              (fun x => { x with
                status := BStatus.cancelled,
                cancellation_time := some now,
                cancellation_reason := reason }) st.bookings),
            memberships := refundCredits now st.memberships b.user_id
              b.credits_used }
          now b.class_id) := by
  simp only [cancel_booking, hb, hcls]
  rw [if_neg hauth, if_neg (by simp [hstatus]), if_neg hstart]

/-- Unfolding of the booking-creation success path of `create_booking`:
all guards pass, the class has capacity, and the unique-constraint check
finds no prior `(user, class)` booking. -/
theorem create_booking_success_eq (st : State) (now : Nat) (u cid nid : String)
    (cls : Class) (m : Membership)
    (hcls : st.classes.find? (fun c => c.id = cid) = some cls)
    (hpast : ¬ cls.start_time < now)
    (hcanc : cls.is_cancelled = false)
    (hconf : st.bookings.find? (fun b => b.class_id = cid ∧ b.user_id = u ∧
      (b.status = BStatus.booked ∨ b.status = BStatus.attended)) = none)
    (hmem : findActiveMembership now st.memberships u = some m)
    (hinsuf : insufficientCredits m cls.class_type.credits_required = false)
    (hcap : activeBookingCount st cid < cls.capacity)
    (hany : (st.bookings.any fun b => b.user_id = u ∧ b.class_id = cid) = false) :
    create_booking st now u cid nid =
      (Response.bookingCreated nid,
        { st with
          bookings := st.bookings ++
            [{ id := nid, user_id := u, class_id := cid,
               status := BStatus.booked,
               credits_used := cls.class_type.credits_required,
               booking_time := now, cancellation_time := none,
               cancellation_reason := none }],
          memberships :=
            if m.remaining_credits.isSome then
              updateFirst (fun x => x.id = m.id)
                (fun x => { x with
                  remaining_credits := x.remaining_credits.map
                    (· - (cls.class_type.credits_required : Int)) })
                st.memberships
            else st.memberships }) := by
  simp only [create_booking, hcls, hconf, hmem]
  rw [if_neg hpast, if_neg (by simp [hcanc]), if_neg (by simp [hinsuf]),
    if_neg (Nat.not_le.mpr hcap),
    if_neg (show ¬ _ = true by rw [hany]; exact Bool.false_ne_true)]

/-- The in-place debit `remaining_credits -= credits_required` of
`create_booking`, as a function (proof-side abbreviation). -/
def debitCredits (r : Nat) (x : Membership) : Membership :=
  { x with remaining_credits := x.remaining_credits.map (· - (r : Int)) }

/-- If a membership query succeeds at `now1` and the found membership is
updated in place by a field-preserving function (only its credits may
change), the query at a later `now2` — at which the membership is still
unexpired — finds exactly the updated row. -/
theorem findActiveMembership_updateFirst
    {now1 now2 : Nat} {u : String} {m : Membership}
    (f : Membership → Membership)
    (hid : ∀ x, (f x).id = x.id) (huser : ∀ x, (f x).user_id = x.user_id)
    (hstat : ∀ x, (f x).status = x.status)
    (hend2 : ∀ x, (f x).end_date = x.end_date) :
    ∀ {ms : List Membership},
      findActiveMembership now1 ms u = some m →
      now1 ≤ now2 → now2 ≤ m.end_date →
      (ms.map (·.id)).Nodup →
      findActiveMembership now2 (updateFirst (fun x => x.id = m.id) f ms) u
        = some (f m)
  | a :: tail, hfind, h12, hend, hnd => by
      rw [List.map_cons, List.nodup_cons] at hnd
      by_cases hpa : (a.user_id = u ∧ a.status = MStatus.active ∧ now1 ≤ a.end_date)
      · have ham : a = m := by
          have := hfind
          unfold findActiveMembership at this
          rw [List.find?_cons_of_pos _ (by simpa using hpa)] at this
          exact Option.some_inj.mp this
        subst ham
        have hup : updateFirst (fun x => x.id = a.id) f (a :: tail)
            = f a :: tail := by
          simp [updateFirst]
        unfold findActiveMembership
        rw [hup]
        refine List.find?_cons_of_pos _ ?_
        simp only [decide_eq_true_eq, hid, huser, hstat, hend2]
        exact ⟨hpa.1, hpa.2.1, hend⟩
      · have htail : findActiveMembership now1 tail u = some m := by
          have := hfind
          unfold findActiveMembership at this
          rw [List.find?_cons_of_neg _ (by simpa using hpa)] at this
          exact this
        have hmtail : m ∈ tail := List.mem_of_find?_eq_some htail
        have hane : ¬ (a.id = m.id) := fun h =>
          hnd.1 (h ▸ List.mem_map_of_mem (·.id) hmtail)
        have hup : updateFirst (fun x => x.id = m.id) f (a :: tail)
            = a :: updateFirst (fun x => x.id = m.id) f tail := by
          simp [updateFirst, hane]
        unfold findActiveMembership
        rw [hup]
        rw [List.find?_cons_of_neg _ ?_]
        · exact findActiveMembership_updateFirst f hid huser hstat hend2
            htail h12 hend hnd.2
        · simp only [decide_eq_true_eq]
          intro hcon
          exact hpa ⟨hcon.1, hcon.2.1, Nat.le_trans h12 hcon.2.2⟩

/-! ## C6: cancellation refund rule -/

/-- `refundCredits` with zero credits used is the identity. -/
theorem refundCredits_zero (now : Nat) (ms : List Membership) (uid : String) :
    refundCredits now ms uid 0 = ms := by
  simp [refundCredits]

/-- No current active membership: the refund is silently dropped. -/
theorem refundCredits_nomem {now : Nat} {ms : List Membership} {uid : String}
    (cred : Nat) (hm : findActiveMembership now ms uid = none) :
    refundCredits now ms uid cred = ms := by
  unfold refundCredits
  rw [hm]
  simp

/-- Unlimited current membership: the refund changes nothing. -/
theorem refundCredits_unlimited {now : Nat} {ms : List Membership} {uid : String}
    {m : Membership} (cred : Nat)
    (hm : findActiveMembership now ms uid = some m)
    (hc : m.remaining_credits = none) :
    refundCredits now ms uid cred = ms := by
  unfold refundCredits
  rw [hm]
  simp [hc]

/-- Finite current membership: `remaining_credits` grows by the
booking's `credits_used`. -/
theorem refundCredits_finite {now : Nat} {ms : List Membership} {uid : String}
    {m : Membership} {c : Int} {cred : Nat} (hcred : 0 < cred)
    (hm : findActiveMembership now ms uid = some m)
    (hc : m.remaining_credits = some c)
    (hnd : (ms.map (·.id)).Nodup) :
    (refundCredits now ms uid cred).find? (fun x => x.id = m.id)
      = some { m with remaining_credits := some (c + (cred : Int)) } := by
  unfold refundCredits
  rw [hm]
  rw [if_pos hcred]
  dsimp only
  rw [if_pos (show m.remaining_credits.isSome = true by simp [hc])]
  refine (find?_updateFirst_self ?_ ms).trans ?_
  · intro x
    rfl
  · rw [find?_id_of_mem_nodup hnd (List.mem_of_find?_eq_some hm)]
    simp [hc]

/-- **C6.** When `cancelBooking` succeeds on a booking with
`credits_used > 0`: the booking becomes status=cancelled with
`cancellation_time = now`; the refund re-resolves the user's *current*
active unexpired membership — if it exists and tracks finite credits,
its `remaining_credits` grows by `credits_used`; if the membership is
unlimited, or no active membership exists, no membership changes
anywhere (the refund is silently dropped); and the final state is
`promoteNext` (`process_waitlist`) applied, after the commit, to the
booking's class. -/
theorem cancel_booking_refund_C6 (st : State) (now : Nat)
    (bid au ar : String) (reason : Option String) (b : Booking) (cls : Class)
    (hb : st.bookings.find? (fun x => x.id = bid) = some b)
    (hauth : ¬ (b.user_id ≠ au ∧ ar ≠ "admin" ∧ ar ≠ "trainer"))
    (hstatus : b.status = BStatus.booked)
    (hcls : st.classes.find? (fun c => c.id = b.class_id) = some cls)
    (hstart : ¬ cls.start_time < now)
    (hcred : 0 < b.credits_used)
    (hnd : (st.memberships.map (·.id)).Nodup) :
    (cancel_booking st now bid au ar reason).1 =
        Response.ok "Booking cancelled successfully"
  ∧ (cancel_booking st now bid au ar reason).2.bookings.find?
        (fun x => x.id = bid)
      = some { b with
          status := BStatus.cancelled,
          cancellation_time := some now,
          cancellation_reason := reason }
  ∧ (∀ m c, findActiveMembership now st.memberships b.user_id = some m →
      m.remaining_credits = some c →
      (cancel_booking st now bid au ar reason).2.memberships.find?
          (fun x => x.id = m.id)
        = some { m with remaining_credits := some (c + (b.credits_used : Int)) })
  ∧ (∀ m, findActiveMembership now st.memberships b.user_id = some m →
      m.remaining_credits = none →
      (cancel_booking st now bid au ar reason).2.memberships = st.memberships)
  ∧ (findActiveMembership now st.memberships b.user_id = none →
      (cancel_booking st now bid au ar reason).2.memberships = st.memberships)
  ∧ (∃ stMid : State, stMid.waitlist = st.waitlist ∧
      (cancel_booking st now bid au ar reason).2 =
        process_waitlist stMid now b.class_id) := by
  have heq := cancel_booking_eq st now bid au ar reason b cls hb hauth
    hstatus hcls hstart
  refine ⟨by rw [heq], ?_, fun m c hm hc => ?_, fun m hm hc => ?_,
    fun hm => ?_, ?_⟩
  · rw [heq]
    dsimp only
    rw [(process_waitlist_rest _ now b.class_id).2.1]
    dsimp only
    refine (find?_updateFirst_self ?_ st.bookings).trans ?_
    · intro x
      rfl
    · rw [hb]
      rfl
  · rw [heq]
    dsimp only
    rw [(process_waitlist_rest _ now b.class_id).2.2]
    dsimp only
    exact refundCredits_finite hcred hm hc hnd
  · rw [heq]
    dsimp only
    rw [(process_waitlist_rest _ now b.class_id).2.2]
    dsimp only
    exact refundCredits_unlimited _ hm hc
  · rw [heq]
    dsimp only
    rw [(process_waitlist_rest _ now b.class_id).2.2]
    dsimp only
    exact refundCredits_nomem _ hm
  · refine ⟨{ st with
        bookings := (updateFirst (fun x => x.id = bid)
          (fun x => { x with
            status := BStatus.cancelled,
            cancellation_time := some now,
            cancellation_reason := reason }) st.bookings),
        memberships := refundCredits now st.memberships b.user_id
          b.credits_used }, rfl, ?_⟩
    rw [heq]

/-- Witness for C6 at the concrete capacity-1 scenario state: A cancels
their booking and membership MA is refunded from 4 to 5 credits. -/
theorem cancel_booking_refund_C6_witness :
    (cancel_booking c5St 12 "bkA" "A" "member" none).2.memberships.find?
        (fun x => x.id = "MA")
      = some { c5MemA with remaining_credits := some 5 } :=
  (cancel_booking_refund_C6 c5St 12 "bkA" "A" "member" none c5BkA c5Cls
      (by decide) (by decide) (by decide) (by decide) (by decide) (by decide)
      (by decide)).2.2.1 c5MemA 4 (by decide) (by decide)

/-! ## C3: book-then-cancel round trip -/

/-- **C3.** A user with one active unexpired membership with finite
credits books a class (debiting `creditsRequired`) and then — with no
other booking or cancellation against the membership in between, the
membership still active and unexpired, and the class not yet started —
cancels that booking: `remaining_credits` returns to its pre-booking
value (the membership row is restored exactly). -/
theorem roundtrip_C3 (st : State) (now1 now2 : Nat) (u cid nid : String)
    (cls : Class) (m : Membership) (c : Int)
    (hcls : st.classes.find? (fun cl => cl.id = cid) = some cls)
    (hpast : ¬ cls.start_time < now1)
    (hcanc : cls.is_cancelled = false)
    (hany : (st.bookings.any fun b => b.user_id = u ∧ b.class_id = cid) = false)
    (hmem : findActiveMembership now1 st.memberships u = some m)
    (hm : m.remaining_credits = some c)
    (hinsuf : insufficientCredits m cls.class_type.credits_required = false)
    (hcap : activeBookingCount st cid < cls.capacity)
    (hnid : ∀ b ∈ st.bookings, b.id ≠ nid)
    (h12 : now1 ≤ now2)
    (hend : now2 ≤ m.end_date)
    (hstart2 : ¬ cls.start_time < now2)
    (hnd : (st.memberships.map (·.id)).Nodup) :
    (create_booking st now1 u cid nid).1 = Response.bookingCreated nid
  ∧ (cancel_booking (create_booking st now1 u cid nid).2 now2 nid u
      "member" none).1 = Response.ok "Booking cancelled successfully"
  ∧ (cancel_booking (create_booking st now1 u cid nid).2 now2 nid u
      "member" none).2.memberships.find? (fun x => x.id = m.id) = some m := by
  have hconf : st.bookings.find? (fun b => b.class_id = cid ∧ b.user_id = u ∧
      (b.status = BStatus.booked ∨ b.status = BStatus.attended)) = none := by
    refine List.find?_eq_none.mpr fun b hb => ?_
    have h0 := List.any_eq_false.mp hany b hb
    simp only [decide_eq_true_eq] at h0 ⊢
    intro hpred
    exact h0 ⟨hpred.2.1, hpred.1⟩
  have heqc := create_booking_success_eq st now1 u cid nid cls m hcls hpast
    hcanc hconf hmem hinsuf hcap hany
  have hfind1 : (create_booking st now1 u cid nid).2.bookings.find?
      (fun x => x.id = nid) = some
        { id := nid, user_id := u, class_id := cid, status := BStatus.booked,
          credits_used := cls.class_type.credits_required, booking_time := now1,
          cancellation_time := none, cancellation_reason := none } := by
    rw [heqc]
    dsimp only
    rw [List.find?_append]
    have h1 : st.bookings.find? (fun x => x.id = nid) = none :=
      List.find?_eq_none.mpr fun b hb => by simp [hnid b hb]
    rw [h1]
    simp [List.find?_cons]
  have hcls' : (create_booking st now1 u cid nid).2.classes.find?
      (fun c0 => c0.id = ({
          id := nid, user_id := u, class_id := cid,
          status := BStatus.booked,
          credits_used := cls.class_type.credits_required,
          booking_time := now1,
          cancellation_time := none,
          cancellation_reason := none } : Booking).class_id) = some cls := by
    rw [heqc]
    exact hcls
  have heq2 := cancel_booking_eq (create_booking st now1 u cid nid).2 now2
    nid u "member" none _ cls hfind1 (by simp) rfl hcls' hstart2
  refine ⟨by rw [heqc], by rw [heq2], ?_⟩
  rw [heq2]
  dsimp only
  rw [(process_waitlist_rest _ now2 _).2.2]
  rw [heqc]
  dsimp only
  rw [if_pos (show m.remaining_credits.isSome = true by simp [hm])]
  show (refundCredits now2 (updateFirst (fun x => x.id = m.id)
      (debitCredits cls.class_type.credits_required) st.memberships)
      u cls.class_type.credits_required).find? (fun x => x.id = m.id) = some m
  have hm' := findActiveMembership_updateFirst
    (debitCredits cls.class_type.credits_required)
    (fun x => rfl) (fun x => rfl) (fun x => rfl) (fun x => rfl)
    hmem h12 hend hnd
  have hnd1 : ((updateFirst (fun x => x.id = m.id)
      (debitCredits cls.class_type.credits_required)
      st.memberships).map (·.id)).Nodup := by
    have hidmap : (updateFirst (fun x => x.id = m.id)
        (debitCredits cls.class_type.credits_required)
        st.memberships).map (·.id) = st.memberships.map (·.id) := by
      refine map_updateFirst (fun x => ?_) st.memberships
      rfl
    rw [hidmap]
    exact hnd
  rcases Nat.eq_zero_or_pos cls.class_type.credits_required with hr | hr
  · rw [hr, refundCredits_zero]
    refine (find?_updateFirst_self ?_ st.memberships).trans ?_
    · intro x
      rfl
    · rw [find?_id_of_mem_nodup hnd (List.mem_of_find?_eq_some hmem)]
      show some (debitCredits 0 m) = some m
      unfold debitCredits
      rw [hm]
      simp only [Option.map_some']
      rw [show ((c : Int) - ((0 : Nat) : Int)) = c from by simp]
      rw [← hm]
  · have hc' : (debitCredits cls.class_type.credits_required m).remaining_credits
        = some (c - (cls.class_type.credits_required : Int)) := by
      unfold debitCredits
      rw [hm]
      rfl
    have hfin := refundCredits_finite hr hm' hc' hnd1
    rw [Int.sub_add_cancel] at hfin
    rw [← hm] at hfin
    exact hfin

/-- Witness for C3: U1 books class C1 (3 → 2 credits) and cancels; the
membership row is back to exactly its original value. -/
theorem roundtrip_C3_witness :
    (cancel_booking (create_booking ⟨[wCls], [], [], [wMem]⟩ 10 "U1" "C1" "B1").2
        20 "B1" "U1" "member" none).2.memberships.find?
        (fun x => x.id = wMem.id) = some wMem :=
  (roundtrip_C3 ⟨[wCls], [], [], [wMem]⟩ 10 20 "U1" "C1" "B1" wCls wMem 3
    (by decide) (by decide) (by decide) (by decide) (by decide) (by decide)
    (by decide) (by decide) (by decide) (by decide) (by decide) (by decide)
    (by decide)).2.2

/-! ## C10: cancellation can create credits out of nothing -/

/-- **C10.** A booking made under an *unlimited* membership still
records `credits_used = creditsRequired > 0` while deducting nothing
from any membership; if the booking is later cancelled while the user's
current active unexpired membership tracks *finite* credits, that
membership gains `credits_used` — credits that were never deducted.
The membership table may change arbitrarily (to `ms2`) between booking
and cancellation. -/
theorem credits_created_C10 (st : State) (now1 now2 : Nat) (u cid nid : String)
    (cls : Class) (m1 : Membership) (ms2 : List Membership) (m2 : Membership)
    (c2 : Int)
    (hcls : st.classes.find? (fun cl => cl.id = cid) = some cls)
    (hpast : ¬ cls.start_time < now1)
    (hcanc : cls.is_cancelled = false)
    (hany : (st.bookings.any fun b => b.user_id = u ∧ b.class_id = cid) = false)
    (hmem1 : findActiveMembership now1 st.memberships u = some m1)
    (hm1 : m1.remaining_credits = none)
    (hcap : activeBookingCount st cid < cls.capacity)
    (hr : 0 < cls.class_type.credits_required)
    (hnid : ∀ b ∈ st.bookings, b.id ≠ nid)
    (hstart2 : ¬ cls.start_time < now2)
    (hmem2 : findActiveMembership now2 ms2 u = some m2)
    (hm2 : m2.remaining_credits = some c2)
    (hnd2 : (ms2.map (·.id)).Nodup) :
    (create_booking st now1 u cid nid).1 = Response.bookingCreated nid
  ∧ (create_booking st now1 u cid nid).2.memberships = st.memberships
  ∧ (create_booking st now1 u cid nid).2.bookings.find? (fun x => x.id = nid)
      = some {
          id := nid, user_id := u, class_id := cid,
          status := BStatus.booked,
          credits_used := cls.class_type.credits_required,
          booking_time := now1, cancellation_time := none,
          cancellation_reason := none }
  ∧ (cancel_booking { (create_booking st now1 u cid nid).2 with
        memberships := ms2 } now2 nid u "member" none).2.memberships.find?
        (fun x => x.id = m2.id)
      = some { m2 with
          remaining_credits := some (c2 + (cls.class_type.credits_required : Int)) } := by
  have hinsuf : insufficientCredits m1 cls.class_type.credits_required = false := by
    unfold insufficientCredits
    rw [hm1]
  have hconf : st.bookings.find? (fun b => b.class_id = cid ∧ b.user_id = u ∧
      (b.status = BStatus.booked ∨ b.status = BStatus.attended)) = none := by
    refine List.find?_eq_none.mpr fun b hb => ?_
    have h0 := List.any_eq_false.mp hany b hb
    simp only [decide_eq_true_eq] at h0 ⊢
    intro hpred
    exact h0 ⟨hpred.2.1, hpred.1⟩
  have heqc := create_booking_success_eq st now1 u cid nid cls m1 hcls hpast
    hcanc hconf hmem1 hinsuf hcap hany
  have hfind1 : (create_booking st now1 u cid nid).2.bookings.find?
      (fun x => x.id = nid) = some
        { id := nid, user_id := u, class_id := cid, status := BStatus.booked,
          credits_used := cls.class_type.credits_required, booking_time := now1,
          cancellation_time := none, cancellation_reason := none } := by
    rw [heqc]
    dsimp only
    rw [List.find?_append]
    have h1 : st.bookings.find? (fun x => x.id = nid) = none :=
      List.find?_eq_none.mpr fun b hb => by simp [hnid b hb]
    rw [h1]
    simp [List.find?_cons]
  have hb' : ({ (create_booking st now1 u cid nid).2 with
      memberships := ms2 } : State).bookings.find?
      (fun x => x.id = nid) = some
        { id := nid, user_id := u, class_id := cid, status := BStatus.booked,
          credits_used := cls.class_type.credits_required, booking_time := now1,
          cancellation_time := none, cancellation_reason := none } := hfind1
  have hcls'' : ({ (create_booking st now1 u cid nid).2 with
      memberships := ms2 } : State).classes.find?
      (fun c0 => c0.id = ({
          id := nid, user_id := u, class_id := cid,
          status := BStatus.booked,
          credits_used := cls.class_type.credits_required,
          booking_time := now1,
          cancellation_time := none,
          cancellation_reason := none } : Booking).class_id) = some cls := by
    rw [heqc]
    exact hcls
  have heq2 := cancel_booking_eq ({ (create_booking st now1 u cid nid).2 with
      memberships := ms2 }) now2 nid u "member" none _ cls hb' (by simp) rfl
    hcls'' hstart2
  refine ⟨by rw [heqc], ?_, hfind1, ?_⟩
  · rw [heqc]
    dsimp only
    rw [if_neg (by simp [hm1])]
  · rw [heq2]
    dsimp only
    rw [(process_waitlist_rest _ now2 _).2.2]
    dsimp only
    exact refundCredits_finite hr hmem2 hm2 hnd2

/-- U1's unlimited membership. -/
def wMemU : Membership :=
  { id := "MU", user_id := "U1", status := MStatus.active, end_date := 1000,
    remaining_credits := none }

/-- Witness for C10: U1 books under the unlimited membership (nothing
deducted), the membership list is replaced by the finite 3-credit one,
and cancelling then raises it to 4 — a credit created from nothing. -/
theorem credits_created_C10_witness :
    (cancel_booking { (create_booking ⟨[wCls], [], [], [wMemU]⟩ 10 "U1" "C1"
        "B1").2 with memberships := [wMem] } 20 "B1" "U1" "member"
        none).2.memberships.find? (fun x => x.id = wMem.id)
      = some { wMem with remaining_credits := some 4 } :=
  (credits_created_C10 ⟨[wCls], [], [], [wMemU]⟩ 10 20 "U1" "C1" "B1" wCls
    wMemU [wMem] wMem 3 (by decide) (by decide) (by decide) (by decide)
    (by decide) (by decide) (by decide) (by decide) (by decide) (by decide)
    (by decide) (by decide) (by decide)).2.2.2

/-! ## C7: class-cancellation cascade -/

/-- The class of the 3-booking cascade scenario. -/
def c7Cls : Class :=
  { id := "CC", trainer_id := "T1", start_time := 100, end_time := 110,
    capacity := 10, is_cancelled := false, cancellation_reason := none,
    class_type := { credits_required := 1 } }

/-- U1's booking (1 credit, finite membership). -/
def c7B1 : Booking := ⟨"B1", "U1", "CC", BStatus.booked, 1, 10, none, none⟩

/-- U2's booking (1 credit, finite membership). -/
def c7B2 : Booking := ⟨"B2", "U2", "CC", BStatus.booked, 1, 11, none, none⟩

/-- U3's booking (unlimited membership; refund has no target field). -/
def c7B3 : Booking := ⟨"B3", "U3", "CC", BStatus.booked, 1, 12, none, none⟩

/-- U1's finite membership with 2 credits. -/
def c7M1 : Membership := ⟨"M1", "U1", MStatus.active, 1000, some 2⟩

/-- U2's finite membership with 0 credits. -/
def c7M2 : Membership := ⟨"M2", "U2", MStatus.active, 1000, some 0⟩

/-- U3's unlimited membership. -/
def c7M3 : Membership := ⟨"M3", "U3", MStatus.active, 1000, none⟩

/-- A bystander waitlist entry for the cancelled class. -/
def c7Wl : WaitlistEntry := ⟨"W1", "U4", "CC", 1, 5, WStatus.waiting, none⟩

/-- Scenario state: 3 active bookings on the class, one waiting entry. -/
def c7St : State := ⟨[c7Cls], [c7B1, c7B2, c7B3], [c7Wl], [c7M1, c7M2, c7M3]⟩

/-- **C7.** When `cancelClass` succeeds (class exists, actor authorized,
not already cancelled, not ended, reason non-empty): the class row gets
`is_cancelled = true` with the reason stored; every status=booked
booking of the class becomes status=cancelled with
`cancellation_time = now` and reason "Class cancelled by trainer",
bookings in other statuses or other classes are untouched (the
pointwise conditional map); refunds run through the same
current-membership rule (`refundCredits`) as single cancellation, once
per previously-booked booking in store order; the waitlist is untouched
and no promotion is invoked.  The spec's 3-booking scenario (two 1-credit
bookings on finite memberships, one on an unlimited one) is proved as a
closed conjunct: both finite memberships gain 1 credit, all three
bookings become cancelled, the waitlist entry stays waiting. -/
theorem cancel_class_C7 (st : State) (now : Nat) (cid au ar : String)
    (r : String) (cls : Class)
    (hrole : ¬ (ar ≠ "trainer" ∧ ar ≠ "admin"))
    (hcls : st.classes.find? (fun c => c.id = cid) = some cls)
    (hown : ¬ (ar = "trainer" ∧ cls.trainer_id ≠ au))
    (hnc : cls.is_cancelled = false)
    (hend : ¬ cls.end_time < now)
    (hr : ¬ r = "") :
    (cancel_class st now cid au ar (some r)).1 =
        Response.ok "Class cancelled successfully"
  ∧ (cancel_class st now cid au ar (some r)).2.classes.find?
        (fun c => c.id = cid)
      = some { cls with is_cancelled := true, cancellation_reason := some r }
  ∧ (cancel_class st now cid au ar (some r)).2.bookings
      = st.bookings.map (fun b =>
          if b.class_id = cid ∧ b.status = BStatus.booked then
            { b with
              status := BStatus.cancelled,
              cancellation_time := some now,
              cancellation_reason := some "Class cancelled by trainer" }
          else b)
  ∧ (cancel_class st now cid au ar (some r)).2.waitlist = st.waitlist
  ∧ (cancel_class st now cid au ar (some r)).2.memberships
      = (st.bookings.filter fun b =>
          b.class_id = cid ∧ b.status = BStatus.booked).foldl
          (fun ms b => refundCredits now ms b.user_id b.credits_used)
          st.memberships
  ∧ cancel_class c7St 50 "CC" "T1" "trainer" (some "sick") =
      (Response.ok "Class cancelled successfully",
        ⟨[{ c7Cls with is_cancelled := true, cancellation_reason := some "sick" }],
         [{ c7B1 with
              status := BStatus.cancelled, cancellation_time := some 50,
              cancellation_reason := some "Class cancelled by trainer" },
          { c7B2 with
              status := BStatus.cancelled, cancellation_time := some 50,
              cancellation_reason := some "Class cancelled by trainer" },
          { c7B3 with
              status := BStatus.cancelled, cancellation_time := some 50,
              cancellation_reason := some "Class cancelled by trainer" }],
         [c7Wl],
         [{ c7M1 with remaining_credits := some 3 },
          { c7M2 with remaining_credits := some 1 }, c7M3]⟩) := by
  have heq : cancel_class st now cid au ar (some r) =
      (Response.ok "Class cancelled successfully",
        { st with
          classes := (updateFirst (fun c => c.id = cid)
            (fun c => { c with
              is_cancelled := true,
              cancellation_reason := some r }) st.classes),
          bookings := (st.bookings.map fun b =>
            if b.class_id = cid ∧ b.status = BStatus.booked then
              { b with
                status := BStatus.cancelled,
                cancellation_time := some now,
                cancellation_reason := some "Class cancelled by trainer" }
            else b),
          memberships := ((st.bookings.filter fun b =>
            b.class_id = cid ∧ b.status = BStatus.booked).foldl
            (fun ms b => refundCredits now ms b.user_id b.credits_used)
            st.memberships) }) := by
    simp only [cancel_class, hcls]
    rw [if_neg hrole, if_neg hown, if_neg (by simp [hnc]), if_neg hend,
      if_neg hr]
  refine ⟨by rw [heq], ?_, by rw [heq], by rw [heq], by rw [heq], by decide⟩
  rw [heq]
  dsimp only
  refine (find?_updateFirst_self ?_ st.classes).trans ?_
  · intro x
    rfl
  · rw [hcls]
    rfl

/-- Witness for C7 applied at the scenario state: the class row is
cancelled with the reason stored. -/
theorem cancel_class_C7_witness :
    (cancel_class c7St 50 "CC" "T1" "trainer" (some "sick")).2.classes.find?
        (fun c => c.id = "CC")
      = some { c7Cls with is_cancelled := true, cancellation_reason := some "sick" } :=
  (cancel_class_C7 c7St 50 "CC" "T1" "trainer" "sick" c7Cls (by decide)
    (by decide) (by decide) (by decide) (by decide) (by decide)).2.1

/-! ## Branch characterizations of the operations -/

/-- Every run of `create_booking` either fails leaving the state
unchanged, joins the waitlist at `max position + 1`, or — only when the
class still has capacity — inserts a booked Booking. -/
theorem create_booking_cases (st : State) (now : Nat) (u cid nid : String) :
    (∃ code msg, create_booking st now u cid nid = (Response.err code msg, st))
  ∨ (create_booking st now u cid nid =
      (Response.waitlisted (maxWaitingPosition st cid + 1),
        { st with waitlist := st.waitlist ++
          [{ id := nid, user_id := u, class_id := cid,
             position := maxWaitingPosition st cid + 1, join_time := now,
             status := WStatus.waiting, notification_time := none }] }))
  ∨ (∃ cls ms', st.classes.find? (fun c => c.id = cid) = some cls ∧
      activeBookingCount st cid < cls.capacity ∧
      create_booking st now u cid nid = (Response.bookingCreated nid,
        { st with
          bookings := st.bookings ++
            [{ id := nid, user_id := u, class_id := cid,
               status := BStatus.booked,
               credits_used := cls.class_type.credits_required,
               booking_time := now, cancellation_time := none,
               cancellation_reason := none }],
          memberships := ms' })) := by
  cases hf : st.classes.find? (fun c => c.id = cid) with
  | none => exact Or.inl ⟨404, "Class not found", by simp [create_booking, hf]⟩
  | some cls =>
    by_cases h1 : cls.start_time < now
    · exact Or.inl ⟨400, "Cannot book a class that has already started", by
        simp only [create_booking, hf]; rw [if_pos h1]⟩
    · by_cases h2 : cls.is_cancelled = true
      · exact Or.inl ⟨400, "Cannot book a cancelled class", by
          simp only [create_booking, hf]; rw [if_neg h1, if_pos h2]⟩
      · cases hcf : st.bookings.find? (fun b => b.class_id = cid ∧
            b.user_id = u ∧ (b.status = BStatus.booked ∨
              b.status = BStatus.attended)) with
        | some b0 => exact Or.inl ⟨409, "You already have a booking for this class", by
            simp only [create_booking, hf, hcf]; rw [if_neg h1, if_neg h2]⟩
        | none =>
          cases hmf : findActiveMembership now st.memberships u with
          | none => exact Or.inl ⟨403, "You do not have an active membership", by
              simp only [create_booking, hf, hcf, hmf]; rw [if_neg h1, if_neg h2]⟩
          | some am =>
            by_cases h3 : insufficientCredits am cls.class_type.credits_required = true
            · exact Or.inl ⟨403, "You do not have enough credits", by
                simp only [create_booking, hf, hcf, hmf]
                rw [if_neg h1, if_neg h2, if_pos h3]⟩
            · by_cases h4 : cls.capacity ≤ activeBookingCount st cid
              · cases hwf : st.waitlist.find? (fun e => e.class_id = cid ∧
                    e.user_id = u ∧ e.status = WStatus.waiting) with
                | some w => exact Or.inl ⟨409,
                    "You are already on the waitlist for this class", by
                    simp only [create_booking, hf, hcf, hmf, hwf]
                    rw [if_neg h1, if_neg h2, if_neg h3, if_pos h4]⟩
                | none =>
                  by_cases h5 : (st.waitlist.any fun e => e.user_id = u ∧
                      e.class_id = cid) = true
                  · exact Or.inl ⟨500,
                      "UNIQUE constraint failed: waitlist_entries.user_id, waitlist_entries.class_id", by
                      simp only [create_booking, hf, hcf, hmf, hwf]
                      rw [if_neg h1, if_neg h2, if_neg h3, if_pos h4, if_pos h5]⟩
                  · refine Or.inr (Or.inl ?_)
                    simp only [create_booking, hf, hcf, hmf, hwf]
                    rw [if_neg h1, if_neg h2, if_neg h3, if_pos h4, if_neg h5]
              · by_cases h5 : (st.bookings.any fun b => b.user_id = u ∧
                    b.class_id = cid) = true
                · exact Or.inl ⟨500,
                    "UNIQUE constraint failed: bookings.user_id, bookings.class_id", by
                    simp only [create_booking, hf, hcf, hmf]
                    rw [if_neg h1, if_neg h2, if_neg h3, if_neg h4, if_pos h5]⟩
                · refine Or.inr (Or.inr ⟨cls,
                    (if am.remaining_credits.isSome then
                      updateFirst (fun x => x.id = am.id)
                        (fun x => { x with
                          remaining_credits := x.remaining_credits.map
                            (· - (cls.class_type.credits_required : Int)) })
                        st.memberships
                    else st.memberships), rfl, Nat.lt_of_not_le h4, ?_⟩)
                  simp only [create_booking, hf, hcf, hmf]
                  rw [if_neg h1, if_neg h2, if_neg h3, if_neg h4, if_neg h5]

/-- Every run of `cancel_booking` either fails leaving the state
unchanged, or cancels the found booking in place, refunds, and runs
`process_waitlist` on the booking's class. -/
theorem cancel_booking_cases (st : State) (now : Nat)
    (bid au ar : String) (reason : Option String) :
    (cancel_booking st now bid au ar reason).2 = st
  ∨ (∃ b, st.bookings.find? (fun x => x.id = bid) = some b ∧
      (cancel_booking st now bid au ar reason).2 =
        process_waitlist
          { st with
            bookings := (updateFirst (fun x => x.id = bid)
              (fun x => { x with
                status := BStatus.cancelled,
                cancellation_time := some now,
                cancellation_reason := reason }) st.bookings),
            memberships := refundCredits now st.memberships b.user_id
              b.credits_used }
          now b.class_id) := by
  cases hb : st.bookings.find? (fun x => x.id = bid) with
  | none => exact Or.inl (by simp [cancel_booking, hb])
  | some b =>
    by_cases h1 : (b.user_id ≠ au ∧ ar ≠ "admin" ∧ ar ≠ "trainer")
    · exact Or.inl (by simp only [cancel_booking, hb]; rw [if_pos h1])
    · by_cases h2 : b.status ≠ BStatus.booked
      · exact Or.inl (by
          simp only [cancel_booking, hb]; rw [if_neg h1, if_pos h2])
      · cases hc : st.classes.find? (fun cc => cc.id = b.class_id) with
        | none => exact Or.inl (by
            simp only [cancel_booking, hb, hc]; rw [if_neg h1, if_neg h2])
        | some cls =>
          by_cases h3 : cls.start_time < now
          · exact Or.inl (by
              simp only [cancel_booking, hb, hc]
              rw [if_neg h1, if_neg h2, if_pos h3])
          · exact Or.inr ⟨b, rfl, by
              rw [cancel_booking_eq st now bid au ar reason b cls hb h1
                (not_not.mp h2) hc h3]⟩

/-- Every run of `remove_from_waitlist` either fails leaving the state
unchanged, or flips the found waiting entry to removed and reorders its
class. -/
theorem remove_from_waitlist_cases (st : State) (eid au ar : String) :
    (remove_from_waitlist st eid au ar).2 = st
  ∨ (∃ e, st.waitlist.find? (fun x => x.id = eid) = some e ∧
      e.status = WStatus.waiting ∧
      (remove_from_waitlist st eid au ar).2 =
        reorder_waitlist
          { st with waitlist := (updateFirst (fun x => x.id = eid)
              (fun x => { x with status := WStatus.removed }) st.waitlist) }
          e.class_id) := by
  cases he : st.waitlist.find? (fun x => x.id = eid) with
  | none => exact Or.inl (by simp [remove_from_waitlist, he])
  | some e =>
    by_cases h1 : (e.user_id ≠ au ∧ ar ≠ "admin" ∧ ar ≠ "trainer")
    · exact Or.inl (by simp only [remove_from_waitlist, he]; rw [if_pos h1])
    · by_cases h2 : e.status ≠ WStatus.waiting
      · exact Or.inl (by
          simp only [remove_from_waitlist, he]; rw [if_neg h1, if_pos h2])
      · exact Or.inr ⟨e, rfl, not_not.mp h2, by
          simp only [remove_from_waitlist, he]; rw [if_neg h1, if_neg h2]⟩

/-- Every run of `cancel_class` either fails leaving the state
unchanged, or flags the class, cancels its booked bookings pointwise,
refunds them in store order, and leaves the waitlist alone. -/
theorem cancel_class_cases (st : State) (now : Nat) (cid au ar : String)
    (reason : Option String) :
    (cancel_class st now cid au ar reason).2 = st
  ∨ (∃ r, reason = some r ∧
      (cancel_class st now cid au ar reason).2 =
        { st with
          classes := (updateFirst (fun c => c.id = cid)
            (fun c => { c with
              is_cancelled := true,
              cancellation_reason := some r }) st.classes),
          bookings := (st.bookings.map fun b =>
            if b.class_id = cid ∧ b.status = BStatus.booked then
              { b with
                status := BStatus.cancelled,
                cancellation_time := some now,
                cancellation_reason := some "Class cancelled by trainer" }
            else b),
          memberships := ((st.bookings.filter fun b =>
            b.class_id = cid ∧ b.status = BStatus.booked).foldl
            (fun ms b => refundCredits now ms b.user_id b.credits_used)
            st.memberships) }) := by
  by_cases h0 : (ar ≠ "trainer" ∧ ar ≠ "admin")
  · exact Or.inl (by simp only [cancel_class]; rw [if_pos h0])
  · cases hf : st.classes.find? (fun c => c.id = cid) with
    | none => exact Or.inl (by simp only [cancel_class, hf]; rw [if_neg h0])
    | some cls =>
      by_cases h1 : (ar = "trainer" ∧ cls.trainer_id ≠ au)
      · exact Or.inl (by
          simp only [cancel_class, hf]; rw [if_neg h0, if_pos h1])
      · by_cases h2 : cls.is_cancelled = true
        · exact Or.inl (by
            simp only [cancel_class, hf]; rw [if_neg h0, if_neg h1, if_pos h2])
        · by_cases h3 : cls.end_time < now
          · exact Or.inl (by
              simp only [cancel_class, hf]
              rw [if_neg h0, if_neg h1, if_neg h2, if_pos h3])
          · cases hr : reason with
            | none => exact Or.inl (by
                simp only [cancel_class, hf, hr]
                rw [if_neg h0, if_neg h1, if_neg h2, if_neg h3])
            | some r =>
              by_cases h4 : r = ""
              · exact Or.inl (by
                  simp only [cancel_class, hf, hr]
                  rw [if_neg h0, if_neg h1, if_neg h2, if_neg h3, if_pos h4])
              · exact Or.inr ⟨r, rfl, by
                  simp only [cancel_class, hf, hr]
                  rw [if_neg h0, if_neg h1, if_neg h2, if_neg h3, if_neg h4]⟩

/-! ## C1: capacity invariant -/

/-- Spec §8: every class's active booking count is at most its
capacity. -/
def CapInv (st : State) : Prop :=
  ∀ c ∈ st.classes, activeBookingCount st c.id ≤ c.capacity

/-- `CapInv` only reads the classes and bookings tables. -/
theorem capinv_of_same {st st' : State} (hc : st'.classes = st.classes)
    (hb : st'.bookings = st.bookings) (h : CapInv st) : CapInv st' := by
  intro c hcm
  rw [hc] at hcm
  have h2 := h c hcm
  unfold activeBookingCount
  rw [hb]
  exact h2

/-- **C1.** In the sequential model, every booking-workflow operation
preserves `activeBookingCount(class) ≤ capacity` for every class
(`createBooking` needs the class-id primary keys to be unique); in
particular `createBooking` inserts a Booking only when the count is
strictly below the found class's capacity, and when the class is full
it leaves the bookings table untouched (waitlist routing). -/
theorem capacity_invariant_C1 (st : State) :
    (∀ now u cid nid, (st.classes.map (·.id)).Nodup → CapInv st →
      CapInv (create_booking st now u cid nid).2)
  ∧ (∀ now bid au ar reason, CapInv st →
      CapInv (cancel_booking st now bid au ar reason).2)
  ∧ (∀ eid au ar, CapInv st → CapInv (remove_from_waitlist st eid au ar).2)
  ∧ (∀ now cid, CapInv st → CapInv (process_waitlist st now cid))
  ∧ (∀ now cid au ar reason, CapInv st →
      CapInv (cancel_class st now cid au ar reason).2)
  ∧ (∀ now u cid nid cls, st.classes.find? (fun c => c.id = cid) = some cls →
      cls.capacity ≤ activeBookingCount st cid →
      (create_booking st now u cid nid).2.bookings = st.bookings)
  ∧ (∀ now u cid nid cls, st.classes.find? (fun c => c.id = cid) = some cls →
      (create_booking st now u cid nid).1 = Response.bookingCreated nid →
      activeBookingCount st cid < cls.capacity) := by
  refine ⟨fun now u cid nid hndc hinv => ?_, fun now bid au ar reason hinv => ?_,
    fun eid au ar hinv => ?_, fun now cid hinv => ?_,
    fun now cid au ar reason hinv => ?_,
    fun now u cid nid cls hf7 hge => ?_, fun now u cid nid cls hf7 hres => ?_⟩
  · rcases create_booking_cases st now u cid nid with ⟨code, msg, heq⟩ | heq |
      ⟨cls, ms', hf, hlt, heq⟩
    · rw [heq]
      exact hinv
    · rw [heq]
      exact capinv_of_same rfl rfl hinv
    · rw [heq]
      intro c hcm
      have hcm' : c ∈ st.classes := hcm
      unfold activeBookingCount
      dsimp only
      rw [List.filter_append, List.length_append]
      have hclsmem : cls ∈ st.classes := List.mem_of_find?_eq_some hf
      have hclsid : cls.id = cid := by simpa using List.find?_some hf
      have hinvc := hinv c hcm'
      unfold activeBookingCount at hinvc
      by_cases hid : cid = c.id
      · have hceq : c = cls :=
          List.inj_on_of_nodup_map hndc hcm' hclsmem (by rw [hclsid, hid])
        have hone : (List.filter (fun b : Booking => b.class_id = c.id ∧
            (b.status = BStatus.booked ∨ b.status = BStatus.attended))
            [{ id := nid, user_id := u, class_id := cid,
               status := BStatus.booked,
               credits_used := cls.class_type.credits_required,
               booking_time := now, cancellation_time := none,
               cancellation_reason := none }]).length = 1 := by
          simp [← hid]
        rw [hone]
        have hltc : (List.filter (fun b => b.class_id = c.id ∧
            (b.status = BStatus.booked ∨ b.status = BStatus.attended))
            st.bookings).length < c.capacity := by
          unfold activeBookingCount at hlt
          rw [← hid]
          rw [hceq]
          exact hlt
        omega
      · have hzero : (List.filter (fun b : Booking => b.class_id = c.id ∧
            (b.status = BStatus.booked ∨ b.status = BStatus.attended))
            [{ id := nid, user_id := u, class_id := cid,
               status := BStatus.booked,
               credits_used := cls.class_type.credits_required,
               booking_time := now, cancellation_time := none,
               cancellation_reason := none }]).length = 0 := by
          simp [hid]
        rw [hzero]
        omega
  · rcases cancel_booking_cases st now bid au ar reason with heq | ⟨b, hb, heq⟩
    · rw [heq]
      exact hinv
    · rw [heq]
      have h1 : CapInv { st with
          bookings := (updateFirst (fun x => x.id = bid)
            (fun x => { x with
              status := BStatus.cancelled,
              cancellation_time := some now,
              cancellation_reason := reason }) st.bookings),
          memberships := refundCredits now st.memberships b.user_id
            b.credits_used } := by
        intro c hcm
        have hinvc := hinv c hcm
        unfold activeBookingCount at hinvc ⊢
        dsimp only
        refine Nat.le_trans (length_filter_updateFirst_le ?_ st.bookings) hinvc
        intro x hx
        simp at hx
      exact capinv_of_same (process_waitlist_rest _ now b.class_id).1
        (process_waitlist_rest _ now b.class_id).2.1 h1
  · rcases remove_from_waitlist_cases st eid au ar with heq | ⟨e, he, hw, heq⟩
    · rw [heq]
      exact hinv
    · rw [heq]
      exact capinv_of_same (reorder_waitlist_rest _ _).1
        (reorder_waitlist_rest _ _).2.1 hinv
  · exact capinv_of_same (process_waitlist_rest _ now cid).1
      (process_waitlist_rest _ now cid).2.1 hinv
  · rcases cancel_class_cases st now cid au ar reason with heq | ⟨r, hr, heq⟩
    · rw [heq]
      exact hinv
    · rw [heq]
      intro c hcm
      have hex : ∃ y ∈ st.classes, c.id = y.id ∧ c.capacity = y.capacity := by
        rcases mem_updateFirst hcm with hin | ⟨y, hy, hcy⟩
        · exact ⟨c, hin, rfl, rfl⟩
        · exact ⟨y, hy, by rw [hcy], by rw [hcy]⟩
      rcases hex with ⟨y, hy, hidy, hcapy⟩
      have hinvy := hinv y hy
      unfold activeBookingCount at hinvy ⊢
      dsimp only
      rw [hidy, hcapy]
      refine Nat.le_trans (length_filter_map_le ?_ st.bookings) hinvy
      intro x hx
      by_cases hc2 : (x.class_id = cid ∧ x.status = BStatus.booked)
      · rw [if_pos hc2] at hx
        simp at hx
      · rwa [if_neg hc2] at hx
  · rcases create_booking_cases st now u cid nid with ⟨code, msg, heq⟩ | heq |
      ⟨cls', ms', hf', hlt, heq⟩
    · rw [heq]
    · rw [heq]
    · have : cls' = cls := Option.some_inj.mp (hf'.symm.trans hf7)
      exact absurd hlt (Nat.not_lt.mpr (this ▸ hge))
  · rcases create_booking_cases st now u cid nid with ⟨code, msg, heq⟩ | heq |
      ⟨cls', ms', hf', hlt, heq⟩
    · rw [heq] at hres
      simp at hres
    · rw [heq] at hres
      simp at hres
    · have : cls' = cls := Option.some_inj.mp (hf'.symm.trans hf7)
      exact this ▸ hlt

/-- Witness for C1: the invariant is preserved at a concrete state
(one class of capacity 2, one member, empty bookings) by a successful
`create_booking`. -/
theorem capacity_invariant_C1_witness :
    CapInv (create_booking ⟨[wCls], [], [], [wMem]⟩ 10 "U1" "C1" "B1").2 :=
  (capacity_invariant_C1 ⟨[wCls], [], [], [wMem]⟩).1 10 "U1" "C1" "B1"
    (by decide) (by unfold CapInv; decide)

/-! ## C2: waitlist-position contiguity -/

/-- `WaitInv` only reads the waiting entries of the class. -/
theorem waitinv_of_entries_eq {st st' : State} {c : String}
    (h : waitingEntries st' c = waitingEntries st c) (hi : WaitInv st c) :
    WaitInv st' c := by
  unfold WaitInv waitingPositions
  rw [h]
  exact hi

/-- If every element matched by the update key fails the filter both
before and after the update, the filter ignores the update. -/
theorem filter_updateFirst_skip {α : Type} {p q : α → Bool} {f : α → α} :
    ∀ l : List α, (∀ x ∈ l, q x = true → (p x = false ∧ p (f x) = false)) →
      (updateFirst q f l).filter p = l.filter p
  | [], _ => rfl
  | x :: xs, h => by
      by_cases hq : q x
      · have hx := h x (List.mem_cons_self x xs) hq
        rw [show updateFirst q f (x :: xs) = f x :: xs by simp [updateFirst, hq]]
        rw [List.filter_cons_of_neg (by simp [hx.2]),
          List.filter_cons_of_neg (by simp [hx.1])]
      · rw [show updateFirst q f (x :: xs) = x :: updateFirst q f xs by
          simp [updateFirst, hq]]
        have ih := filter_updateFirst_skip xs
          (fun y hy => h y (List.mem_cons_of_mem x hy))
        by_cases hp : p x
        · rw [List.filter_cons_of_pos (by simp [hp]),
            List.filter_cons_of_pos (by simp [hp]), ih]
        · rw [List.filter_cons_of_neg (by simp [hp]),
            List.filter_cons_of_neg (by simp [hp]), ih]

/-- A list permuting `1..N` has maximum `N` (`or 0` when empty). -/
theorem foldr_max_range {ps : List Nat} {N : Nat}
    (h : ps.Perm (List.range' 1 N)) : ps.foldr Nat.max 0 = N := by
  have hle : ps.foldr Nat.max 0 ≤ N := foldr_max_le (fun x hx => by
    have hx2 := List.mem_range'_1.mp (h.mem_iff.mp hx)
    omega)
  cases N with
  | zero =>
      have : ps = [] := h.eq_nil
      rw [this]
      rfl
  | succ n =>
      have hmem : (n + 1) ∈ ps :=
        h.mem_iff.mpr (List.mem_range'_1.mpr ⟨by omega, by omega⟩)
      have := le_foldr_max hmem
      omega

/-- `process_waitlist` preserves the contiguity invariant of every
class (re-establishing it for the processed class via `reorder`). -/
theorem process_waitlist_waitinv (st : State) (now : Nat) (cid c : String)
    (hnd : (st.waitlist.map (·.id)).Nodup) (hinv : WaitInv st c) :
    WaitInv (process_waitlist st now cid) c := by
  unfold process_waitlist
  cases hf : st.classes.find? (fun x => x.id = cid) with
  | none => exact hinv
  | some cls =>
    dsimp only
    by_cases hcap : cls.capacity ≤ activeBookingCount st cid
    · rw [if_pos hcap]
      exact hinv
    · rw [if_neg hcap]
      cases hmin : minByPosition (waitingEntries st cid) with
      | none => exact hinv
      | some e =>
        dsimp only
        have hem : e ∈ waitingEntries st cid := minByPosition_mem hmin
        have hefil := List.mem_filter.mp hem
        have hecid : e.class_id = cid := by
          have h2 := hefil.2
          simp only [decide_eq_true_eq] at h2
          exact h2.1
        have hndm : (((updateFirst (fun x => x.id = e.id)
            (fun x => { x with
              status := WStatus.notified,
              notification_time := some now }) st.waitlist)).map (·.id)).Nodup := by
          have hh : ((updateFirst (fun x => x.id = e.id)
              (fun x => { x with
                status := WStatus.notified,
                notification_time := some now }) st.waitlist)).map (·.id)
              = st.waitlist.map (·.id) := by
            refine map_updateFirst (fun x => ?_) st.waitlist
            rfl
          rw [hh]
          exact hnd
        by_cases hc : c = cid
        · subst hc
          exact reorder_waitlist_establishes _ c hndm
        · refine waitinv_of_entries_eq ?_ hinv
          refine (waitingEntries_reorder_other _ cid c hndm hc).trans ?_
          show (updateFirst (fun x => x.id = e.id)
            (fun x => { x with
              status := WStatus.notified,
              notification_time := some now }) st.waitlist).filter
              (fun x => x.class_id = c ∧ x.status = WStatus.waiting)
            = st.waitlist.filter
              (fun x => x.class_id = c ∧ x.status = WStatus.waiting)
          refine filter_updateFirst_skip st.waitlist fun x hx hq => ?_
          have hxe : x = e := id_inj_of_nodup hnd hx hefil.1
            (by simpa using hq)
          subst hxe
          constructor
          · simp only [decide_eq_false_iff_not]
            intro hcon
            exact hc (hcon.1 ▸ hecid ▸ rfl)
          · simp only [decide_eq_false_iff_not]
            intro hcon
            exact hc (hcon.1 ▸ hecid ▸ rfl)

/-- **C2.** For every class whose waiting positions are exactly
`{1..N}` (and with unique waitlist primary keys), every operation of
the workflow leaves the waiting positions of that class exactly
`{1..N'}`: a full-class join appends position `max + 1 = N + 1`;
removal and promotion renumber `1, 2, …` in join-time order via
`reorder`; class cancellation leaves the waitlist untouched. -/
theorem waitlist_contiguity_C2 (st : State) (c : String)
    (hnd : (st.waitlist.map (·.id)).Nodup) (hinv : WaitInv st c) :
    (∀ now u cid nid, WaitInv (create_booking st now u cid nid).2 c)
  ∧ (∀ now bid au ar reason, WaitInv (cancel_booking st now bid au ar reason).2 c)
  ∧ (∀ eid au ar, WaitInv (remove_from_waitlist st eid au ar).2 c)
  ∧ (∀ now cid, WaitInv (process_waitlist st now cid) c)
  ∧ (∀ now cid au ar reason, WaitInv (cancel_class st now cid au ar reason).2 c) := by
  refine ⟨fun now u cid nid => ?_, fun now bid au ar reason => ?_,
    fun eid au ar => ?_, fun now cid => process_waitlist_waitinv st now cid c hnd hinv,
    fun now cid au ar reason => ?_⟩
  · rcases create_booking_cases st now u cid nid with ⟨code, msg, heq⟩ | heq |
      ⟨cls, ms', hf, hlt, heq⟩
    · rw [heq]
      exact hinv
    · rw [heq]
      by_cases hcc : cid = c
      · subst hcc
        have hentries : waitingEntries
            { st with waitlist := st.waitlist ++
              [{ id := nid, user_id := u, class_id := cid,
                 position := maxWaitingPosition st cid + 1, join_time := now,
                 status := WStatus.waiting, notification_time := none }] } cid
            = waitingEntries st cid ++
              [{ id := nid, user_id := u, class_id := cid,
                 position := maxWaitingPosition st cid + 1, join_time := now,
                 status := WStatus.waiting, notification_time := none }] := by
          unfold waitingEntries
          dsimp only
          rw [List.filter_append]
          rw [show List.filter
              (fun e : WaitlistEntry => e.class_id = cid ∧
                e.status = WStatus.waiting)
              [{ id := nid, user_id := u, class_id := cid,
                 position := maxWaitingPosition st cid + 1, join_time := now,
                 status := WStatus.waiting, notification_time := none }]
              = [{ id := nid, user_id := u, class_id := cid,
                   position := maxWaitingPosition st cid + 1, join_time := now,
                   status := WStatus.waiting,
                   notification_time := none }] by simp]
        unfold WaitInv waitingPositions
        rw [hentries, List.map_append, List.length_append]
        simp only [List.map_cons, List.map_nil, List.length_singleton]
        have hmax : maxWaitingPosition st cid
            = (waitingEntries st cid).length := foldr_max_range hinv
        rw [hmax]
        have hconcat : List.range' 1 ((waitingEntries st cid).length + 1)
            = List.range' 1 (waitingEntries st cid).length ++
              [(waitingEntries st cid).length + 1] := by
          rw [List.range'_concat]
          have h9 : 1 + 1 * (waitingEntries st cid).length
              = (waitingEntries st cid).length + 1 := by omega
          rw [h9]
        rw [hconcat]
        exact hinv.append_right _
      · refine waitinv_of_entries_eq ?_ hinv
        unfold waitingEntries
        dsimp only
        rw [List.filter_append]
        rw [show List.filter
            (fun e : WaitlistEntry => e.class_id = c ∧
              e.status = WStatus.waiting)
            [{ id := nid, user_id := u, class_id := cid,
               position := maxWaitingPosition st cid + 1, join_time := now,
               status := WStatus.waiting, notification_time := none }]
            = [] by simp [hcc]]
        rw [List.append_nil]
    · rw [heq]
      exact hinv
  · rcases cancel_booking_cases st now bid au ar reason with heq | ⟨b, hb, heq⟩
    · rw [heq]
      exact hinv
    · rw [heq]
      exact process_waitlist_waitinv _ now b.class_id c hnd hinv
  · rcases remove_from_waitlist_cases st eid au ar with heq | ⟨e, he, hw, heq⟩
    · rw [heq]
      exact hinv
    · rw [heq]
      have heid : e.id = eid := by simpa using List.find?_some he
      have hem : e ∈ st.waitlist := List.mem_of_find?_eq_some he
      have hndm : (((updateFirst (fun x => x.id = eid)
          (fun x => { x with status := WStatus.removed }) st.waitlist)).map
            (·.id)).Nodup := by
        have hh : ((updateFirst (fun x => x.id = eid)
            (fun x => { x with status := WStatus.removed }) st.waitlist)).map
              (·.id) = st.waitlist.map (·.id) := by
          refine map_updateFirst (fun x => ?_) st.waitlist
          rfl
        rw [hh]
        exact hnd
      by_cases hc : c = e.class_id
      · subst hc
        exact reorder_waitlist_establishes _ _ hndm
      · refine waitinv_of_entries_eq ?_ hinv
        refine (waitingEntries_reorder_other _ e.class_id c hndm hc).trans ?_
        show (updateFirst (fun x => x.id = eid)
          (fun x => { x with status := WStatus.removed }) st.waitlist).filter
            (fun x => x.class_id = c ∧ x.status = WStatus.waiting)
          = st.waitlist.filter
            (fun x => x.class_id = c ∧ x.status = WStatus.waiting)
        refine filter_updateFirst_skip st.waitlist fun x hx hq => ?_
        have hxe : x = e := id_inj_of_nodup hnd hx hem
          (by simpa [heid] using hq)
        subst hxe
        constructor
        · simp only [decide_eq_false_iff_not]
          intro hcon
          exact hc hcon.1.symm
        · simp only [decide_eq_false_iff_not]
          intro hcon
          exact hc hcon.1.symm
  · rcases cancel_class_cases st now cid au ar reason with heq | ⟨r, hrr, heq⟩
    · rw [heq]
      exact hinv
    · rw [heq]
      exact hinv

/-- Witness for C2: joining the full class behind U2's position-1 entry
leaves the waiting positions of the class exactly `{1, 2}`. -/
theorem waitlist_contiguity_C2_witness :
    WaitInv (create_booking ⟨[c4Cls], [], [c4Other], [wMem]⟩ 10 "U1" "C1" "w9").2
      "C1" :=
  (waitlist_contiguity_C2 ⟨[c4Cls], [], [c4Other], [wMem]⟩ "C1" (by decide)
    (waitinv_of_eq (by decide))).1 10 "U1" "C1" "w9"

end Gym
